import Mathlib

/-!
Verification development for the har-to-ts generator (src/cli.ts, src/index.ts).

The TypeScript source is shallowly embedded below: strings are modelled as
Lean strings over their character lists (all inputs considered are ASCII, so
UTF-16 code units and Unicode scalar values coincide), JavaScript's 32-bit
signed integer coercion is modelled explicitly on Int, exceptions are
modelled with Except, and the process-global mutable registries are threaded
as explicit state.  External collaborators (file I/O, prettier, the
json-to-ts npm library, the template assembly of emitted function bodies)
are out of scope per the specification; json-to-ts is abstracted as a
function parameter.
-/

set_option maxRecDepth 16384

namespace HarToTs

/-! ## Character classes

JavaScript regex classes used by the source, written over `Char.toNat` so
that symbolic reasoning can use `omega`.  `\s` also matches the rarer
Unicode space separators; the inputs this development works over only
involve the listed code points. -/

def isJsWhitespace (c : Char) : Bool :=
  c.toNat = 32 || c.toNat = 9 || c.toNat = 10 || c.toNat = 13 ||
  c.toNat = 11 || c.toNat = 12 || c.toNat = 160 || c.toNat = 65279

/-- The class `[A-Za-z0-9_]`, i.e. regex `\w`. -/
def isWordChar (c : Char) : Bool :=
  (65 ≤ c.toNat && c.toNat ≤ 90) || (97 ≤ c.toNat && c.toNat ≤ 122) ||
  (48 ≤ c.toNat && c.toNat ≤ 57) || c.toNat = 95

/-- The class `[A-Za-z0-9]` (no underscore), used by `normalizeTypeName`. -/
def isAsciiAlphanum (c : Char) : Bool :=
  (65 ≤ c.toNat && c.toNat ≤ 90) || (97 ≤ c.toNat && c.toNat ≤ 122) ||
  (48 ≤ c.toNat && c.toNat ≤ 57)

def isAsciiAlpha (c : Char) : Bool :=
  (65 ≤ c.toNat && c.toNat ≤ 90) || (97 ≤ c.toNat && c.toNat ≤ 122)

def isAsciiDigit (c : Char) : Bool :=
  48 ≤ c.toNat && c.toNat ≤ 57

/-! ## JavaScript 32-bit integer coercion and number rendering -/

/-- `ToInt32`: reduce an integer into `[-2^31, 2^31)`, as the JS `<<` and `&`
operators do to their operands/results. -/
def toInt32 (x : Int) : Int :=
  (x + 2 ^ 31) % 2 ^ 32 - 2 ^ 31

def base36Digit (n : Nat) : Char :=
  if n < 10 then Char.ofNat (48 + n) else Char.ofNat (87 + n)

/-- Digits of `n` in base 36, most significant first; fuelled so that the
recursion is structural (fuel `n` suffices since `n / 36 < n`). -/
def natToBase36Aux : Nat → Nat → List Char
  | 0, _ => []
  | _, 0 => []
  | fuel + 1, n + 1 =>
    natToBase36Aux fuel ((n + 1) / 36) ++ [base36Digit ((n + 1) % 36)]

/-- JS `Number.prototype.toString(36)` for naturals (lowercase digits). -/
def natToBase36 (n : Nat) : String :=
  if n = 0 then "0" else String.mk (natToBase36Aux n n)

/-- JS `Number.prototype.toString(36)` for integers: negative values render
as a minus sign followed by the base-36 digits of the absolute value. -/
def intToBase36 (i : Int) : String :=
  if i < 0 then "-" ++ natToBase36 i.natAbs else natToBase36 i.natAbs

def decimalDigit (n : Nat) : Char := Char.ofNat (48 + n)

def natToDecimalAux : Nat → Nat → List Char
  | 0, _ => []
  | _, 0 => []
  | fuel + 1, n + 1 =>
    natToDecimalAux fuel ((n + 1) / 10) ++ [decimalDigit ((n + 1) % 10)]

/-- JS number-to-string for naturals (template-literal interpolation of the
`counter` and `typeRegistry.size` values in the source). -/
def natToDecimal (n : Nat) : String :=
  if n = 0 then "0" else String.mk (natToDecimalAux n n)

/-! ## hashType (cli.ts lines 63-76)

```
function hashType(content: string): string {
  let hash = 0;
  const normalizedContent = content
    .replace(/\s+/g, " ")
    .replace(/interface\s+\w+\s+/g, "interface ")
    .trim();
  for (let i = 0; i < normalizedContent.length; i++) {
    const char = normalizedContent.charCodeAt(i);
    hash = (hash << 5) - hash + char;
    hash = hash & hash;
  }
  return hash.toString(36);
}
```
-/

/-- `replace(/\s+/g, " ")`: every maximal run of whitespace becomes a single
space.  The boolean flag records whether the previous character was part of
a whitespace run already replaced. -/
def collapseAux : Bool → List Char → List Char
  | _, [] => []
  | prevWs, c :: cs =>
    if isJsWhitespace c then
      if prevWs then collapseAux true cs else ' ' :: collapseAux true cs
    else c :: collapseAux false cs

def collapseWhitespace (cs : List Char) : List Char :=
  collapseAux false cs

/-- One attempted match of the regex `interface\s+\w+\s+` at the head of the
list.  The character classes of consecutive greedy pieces are disjoint, so
maximal-munch `takeWhile`/`dropWhile` implements the greedy semantics
exactly.  Returns the remainder after the match. -/
def matchInterfaceAt (cs : List Char) : Option (List Char) :=
  if "interface".data.isPrefixOf cs then
    let r0 := cs.drop 9
    let w1 := r0.takeWhile isJsWhitespace
    let r1 := r0.dropWhile isJsWhitespace
    let w2 := r1.takeWhile isWordChar
    let r2 := r1.dropWhile isWordChar
    let w3 := r2.takeWhile isJsWhitespace
    let r3 := r2.dropWhile isJsWhitespace
    if w1.isEmpty || w2.isEmpty || w3.isEmpty then none else some r3
  else none

/-- `replace(/interface\s+\w+\s+/g, "interface ")`: scan left to right; after
a match the scan resumes at the remainder (replacements are not rescanned).
Fuelled by the input length so the recursion is structural. -/
def eraseInterfaceNameAux : Nat → List Char → List Char
  | 0, cs => cs
  | _ + 1, [] => []
  | fuel + 1, c :: cs =>
    match matchInterfaceAt (c :: cs) with
    | some rest => "interface ".data ++ eraseInterfaceNameAux fuel rest
    | none => c :: eraseInterfaceNameAux fuel cs

def eraseInterfaceName (cs : List Char) : List Char :=
  eraseInterfaceNameAux cs.length cs

/-- JS `String.prototype.trim()`. -/
def trimJs (cs : List Char) : List Char :=
  ((cs.dropWhile isJsWhitespace).reverse.dropWhile isJsWhitespace).reverse

def normalizeHashInput (content : String) : List Char :=
  trimJs (eraseInterfaceName (collapseWhitespace content.data))

/-- One iteration of the hash loop.  In JS, `hash` is always a 32-bit signed
integer after the `hash = hash & hash` coercion, so `hash << 5` is
`ToInt32(hash * 32)` and the trailing `& hash` is a final `ToInt32`; the
intermediate `- hash + char` is exact double arithmetic. -/
def hashStep (hash : Int) (c : Char) : Int :=
  toInt32 (toInt32 (hash * 32) - hash + c.toNat)

def hashLoop : Int → List Char → Int
  | h, [] => h
  | h, c :: cs => hashLoop (hashStep h c) cs

def hashType (content : String) : String :=
  intToBase36 (hashLoop 0 (normalizeHashInput content))

/-! ## normalizeTypeName (cli.ts lines 78-83) -/

mutual

/-- State "inside a kept segment" of `split(/[^a-zA-Z0-9]+/)`: `acc` holds
the segment read so far, reversed. -/
def splitRunsGo (p : Char → Bool) : List Char → List Char → List (List Char)
  | [], acc => [acc.reverse]
  | c :: cs, acc =>
    if p c then acc.reverse :: splitRunsSep p cs else splitRunsGo p cs (c :: acc)

/-- State "inside a separator run" of `split(/[^a-zA-Z0-9]+/)`. -/
def splitRunsSep (p : Char → Bool) : List Char → List (List Char)
  | [] => [[]]
  | c :: cs => if p c then splitRunsSep p cs else splitRunsGo p cs [c]

end

/-- `part.charAt(0).toUpperCase() + part.slice(1).toLowerCase()` (ASCII). -/
def titleCasePart : List Char → List Char
  | [] => []
  | c :: cs => c.toUpper :: cs.map Char.toLower

def normalizeTypeName (name : String) : String :=
  String.mk (((splitRunsGo (fun c => !isAsciiAlphanum c) name.data []).map titleCasePart).flatten)

/-! ## The identifier registry and normalizePropertyName (cli.ts lines 119-141)

```
const propertyRegistry = new Map<string, string>();
function normalizePropertyName(name: string): string {
  let normalizedName = name.replace(/^(ep\.|epn\.|_)/, "");
  normalizedName = normalizedName.replace(/[^a-zA-Z0-9_]/g, "_");
  if (propertyRegistry.has(name)) {
    return propertyRegistry.get(name)!;
  }
  let uniqueName = normalizedName;
  let counter = 1;
  while (Array.from(propertyRegistry.values()).includes(uniqueName)) {
    uniqueName = `${normalizedName}_${counter}`;
    counter++;
  }
  propertyRegistry.set(name, uniqueName);
  return uniqueName;
}
```
The `Map` is modelled as an insertion-ordered association list; the run
starts from the empty registry (`propertyRegistry.clear()` in
`generateFromHar`). -/

abbrev PropertyRegistry := List (String × String)

def registryValues (r : PropertyRegistry) : List String :=
  r.map Prod.snd

/-- `replace(/^(ep\.|epn\.|_)/, "")`: alternatives are tried left to right,
at the start of the string, at most one replacement. -/
def stripNoisePrefix (cs : List Char) : List Char :=
  if "ep.".data.isPrefixOf cs then cs.drop 3
  else if "epn.".data.isPrefixOf cs then cs.drop 4
  else if "_".data.isPrefixOf cs then cs.drop 1
  else cs

/-- `replace(/[^a-zA-Z0-9_]/g, "_")`. -/
def sanitizeChars (cs : List Char) : List Char :=
  cs.map (fun c => if isWordChar c then c else '_')

/-- The candidate tried at loop iteration `k` of the uniqueness loop:
`uniqueName` starts as the base and then runs through base_1, base_2, ... -/
def candidateName (base : String) : Nat → String
  | 0 => base
  | k + 1 => base ++ "_" ++ natToDecimal (k + 1)

/-- The `while (values.includes(uniqueName))` loop: return the first
candidate not among the registry values.  The candidates are pairwise
distinct, so the loop exits within `vals.length + 1` iterations; the
fallthrough branch is unreachable. -/
def freshName (vals : List String) (base : String) : String :=
  match ((List.range (vals.length + 1)).map (candidateName base)).find?
      (fun c => !vals.contains c) with
  | some c => c
  | none => base

def normalizePropertyName (r : PropertyRegistry) (name : String) :
    PropertyRegistry × String :=
  let normalizedName := String.mk (sanitizeChars (stripNoisePrefix name.data))
  match r.lookup name with
  | some u => (r, u)
  | none =>
    let uniqueName := freshName (registryValues r) normalizedName
    (r ++ [(name, uniqueName)], uniqueName)

/-! ## URLSearchParams (used for form bodies and URL query strings)

Modelled from the WHATWG urlencoded parser: strip one leading `?`, split on
`&`, skip empty pieces, split each piece at the first `=`, turn `+` into a
space, percent-decode.  Multi-byte UTF-8 percent sequences are outside the
ASCII fragment modelled here. -/

def hexDigitValue (c : Char) : Option Nat :=
  if 48 ≤ c.toNat && c.toNat ≤ 57 then some (c.toNat - 48)
  else if 97 ≤ c.toNat && c.toNat ≤ 102 then some (c.toNat - 87)
  else if 65 ≤ c.toNat && c.toNat ≤ 70 then some (c.toNat - 55)
  else none

def percentDecode : List Char → List Char
  | [] => []
  | '%' :: c1 :: c2 :: rest =>
    match hexDigitValue c1, hexDigitValue c2 with
    | some hi, some lo => Char.ofNat (16 * hi + lo) :: percentDecode rest
    | _, _ => '%' :: percentDecode (c1 :: c2 :: rest)
  | c :: rest => c :: percentDecode rest

def formDecode (cs : List Char) : String :=
  String.mk (percentDecode (cs.map (fun c => if c = '+' then ' ' else c)))

def splitFormPair (piece : List Char) : String × String :=
  let name := piece.takeWhile (fun c => c ≠ '=')
  let value := (piece.dropWhile (fun c => c ≠ '=')).drop 1
  (formDecode name, formDecode value)

/-- JS `String.prototype.split` with a single-character separator: every
occurrence splits, empty pieces are kept. -/
def splitOnSep (sep : Char) : List Char → List Char → List (List Char)
  | [], acc => [acc.reverse]
  | c :: cs, acc =>
    if c = sep then acc.reverse :: splitOnSep sep cs []
    else splitOnSep sep cs (c :: acc)

def parseSearchParamsList (cs : List Char) : List (String × String) :=
  ((splitOnSep '&' cs []).filter (fun p => !p.isEmpty)).map splitFormPair

/-- `new URLSearchParams(s)` followed by iterating `entries()`. -/
def parseSearchParams (s : String) : List (String × String) :=
  parseSearchParamsList
    (if "?".data.isPrefixOf s.data then s.data.drop 1 else s.data)

/-! ## generateTypeFromFormData (cli.ts lines 143-166) -/

/-- Inference-engine state: the property registry plus the warnings logged
so far (`console.warn` calls are modelled by appending to the list). -/
structure InferState where
  propReg : PropertyRegistry
  warnings : List String
deriving DecidableEq

/-- Regex `/^-?\d+$/`. -/
def isNumberLiteral (v : String) : Bool :=
  match v.data with
  | '-' :: ds => !ds.isEmpty && ds.all isAsciiDigit
  | ds => !ds.isEmpty && ds.all isAsciiDigit

/-- Regex `/^true|false$/i`.  Note the alternation binds weaker than the
anchors: this matches any value with case-insensitive prefix `true` OR
case-insensitive suffix `false`, not only the exact words. -/
def isBooleanLiteral (v : String) : Bool :=
  let low := v.data.map Char.toLower
  "true".data.isPrefixOf low || "false".data.isSuffixOf low

def classifyFormValue (v : String) : String :=
  if isNumberLiteral v then "number"
  else if isBooleanLiteral v then "boolean"
  else "string"

/-- `Map.set` on an association list: replace in place, else append. -/
def mapUpsert (m : List (String × String)) (k v : String) :
    List (String × String) :=
  if m.any (fun p => p.1 == k) then
    m.map (fun p => if p.1 == k then (k, v) else p)
  else m ++ [(k, v)]

/-- The `for (const [key, value] of params.entries())` loop building the
`properties` map. -/
def formProperties (st : InferState) (props : List (String × String)) :
    List (String × String) → InferState × List (String × String)
  | [] => (st, props)
  | (k, v) :: rest =>
    let p := normalizePropertyName st.propReg k
    formProperties { st with propReg := p.1 }
      (mapUpsert props p.2 (classifyFormValue v)) rest

/-- `generateTypeFromFormData`.  The constructor `new URLSearchParams`
cannot throw on a string argument, so the source's catch branch (warn and
fall back to `Record<string, string>`) is unreachable and the modelled
function is the success path. -/
def generateTypeFromFormData (st : InferState) (name : String)
    (formData : String) : InferState × String :=
  let r := formProperties st [] (parseSearchParams formData)
  (r.1, "interface " ++ name ++ " \x7b\n" ++
    String.intercalate "\n"
      (r.2.map (fun p => "  " ++ p.1 ++ ": " ++ p.2 ++ ";")) ++ "\n\x7d")

/-! ## JSON values and JSON.parse

`JsValue` is the tagged-variant model of a parsed JSON document.  Number
literals are kept as their source text: nothing in the modelled code
computes with their numeric value, which keeps floating point out of the
embedding.  `JsError` distinguishes the `SyntaxError` thrown by
`JSON.parse` from ordinary `Error` values, because the catch handler in
`generateTypeFromData` branches on `error instanceof SyntaxError`. -/

inductive JsValue where
  | null
  | bool (b : Bool)
  | num (lit : String)
  | str (s : String)
  | arr (elems : List JsValue)
  | obj (fields : List (String × JsValue))

inductive JsError where
  | syntaxError
  | error (msg : String)
deriving DecidableEq

def skipJsonWs (cs : List Char) : List Char :=
  cs.dropWhile (fun c => c = ' ' || c = '\t' || c = '\n' || c = '\r')

/-- String body after an opening quote; returns the content and remainder.
Escape sequences are mapped for the common single-character escapes;
`\uXXXX` sequences are outside the fragment of documents modelled here (no
claim inspects parsed string contents). -/
def parseJsonStringAux : List Char → Except JsError (List Char × List Char)
  | [] => .error .syntaxError
  | '"' :: rest => .ok ([], rest)
  | '\\' :: [] => .error .syntaxError
  | '\\' :: e :: rest =>
    match parseJsonStringAux rest with
    | .error err => .error err
    | .ok (content, rem) =>
      let decoded : Char :=
        if e = 'n' then '\n' else if e = 't' then '\t'
        else if e = 'r' then '\r' else if e = 'b' then Char.ofNat 8
        else if e = 'f' then Char.ofNat 12 else e
      .ok (decoded :: content, rem)
  | c :: rest =>
    match parseJsonStringAux rest with
    | .error err => .error err
    | .ok (content, rem) => .ok (c :: content, rem)

/-- Number token: `-?\d+(\.\d+)?([eE][+-]?\d+)?`, returned as its literal
text.  (The JSON grammar also rejects redundant leading zeros; that
restriction is not needed by any claim and is not modelled.) -/
def parseJsonNumber (cs : List Char) : Except JsError (JsValue × List Char) :=
  let sign := cs.takeWhile (fun c => c = '-')
  let afterSign := cs.dropWhile (fun c => c = '-')
  if sign.length ≤ 1 then
    let intPart := afterSign.takeWhile isAsciiDigit
    let r1 := afterSign.dropWhile isAsciiDigit
    if intPart.isEmpty then .error .syntaxError
    else
      let frac : List Char × List Char :=
        match r1 with
        | '.' :: ds =>
          let f := ds.takeWhile isAsciiDigit
          if f.isEmpty then ([], r1) else ('.' :: f, ds.dropWhile isAsciiDigit)
        | _ => ([], r1)
      let expPart : List Char × List Char :=
        match frac.2 with
        | 'e' :: ds =>
          let s := ds.takeWhile (fun c => c = '+' || c = '-')
          let d := (ds.dropWhile (fun c => c = '+' || c = '-')).takeWhile isAsciiDigit
          if s.length ≤ 1 && !d.isEmpty then
            ('e' :: s ++ d, (ds.dropWhile (fun c => c = '+' || c = '-')).dropWhile isAsciiDigit)
          else ([], frac.2)
        | 'E' :: ds =>
          let s := ds.takeWhile (fun c => c = '+' || c = '-')
          let d := (ds.dropWhile (fun c => c = '+' || c = '-')).takeWhile isAsciiDigit
          if s.length ≤ 1 && !d.isEmpty then
            ('E' :: s ++ d, (ds.dropWhile (fun c => c = '+' || c = '-')).dropWhile isAsciiDigit)
          else ([], frac.2)
        | _ => ([], frac.2)
      .ok (.num (String.mk (sign ++ intPart ++ frac.1 ++ expPart.1)), expPart.2)
  else .error .syntaxError

mutual

/-- Recursive-descent JSON value parser, fuelled (fuel bounds the nesting
work; `jsonParse` supplies `length + 1`, which always suffices). -/
def parseJsonValue : Nat → List Char → Except JsError (JsValue × List Char)
  | 0, _ => .error .syntaxError
  | fuel + 1, cs =>
    match skipJsonWs cs with
    | [] => .error .syntaxError
    | 'n' :: rest =>
      if "ull".data.isPrefixOf rest then .ok (.null, rest.drop 3)
      else .error .syntaxError
    | 't' :: rest =>
      if "rue".data.isPrefixOf rest then .ok (.bool true, rest.drop 3)
      else .error .syntaxError
    | 'f' :: rest =>
      if "alse".data.isPrefixOf rest then .ok (.bool false, rest.drop 4)
      else .error .syntaxError
    | '"' :: rest =>
      (match parseJsonStringAux rest with
       | .error err => .error err
       | .ok (content, rem) => .ok (.str (String.mk content), rem))
    | '[' :: rest =>
      (match skipJsonWs rest with
       | ']' :: rem => .ok (.arr [], rem)
       | other =>
         match parseJsonElements fuel other with
         | .error err => .error err
         | .ok (elems, rem) => .ok (.arr elems, rem))
    | '{' :: rest =>
      (match skipJsonWs rest with
       | '}' :: rem => .ok (.obj [], rem)
       | other =>
         match parseJsonMembers fuel other with
         | .error err => .error err
         | .ok (fields, rem) => .ok (.obj fields, rem))
    | c :: rest =>
      if c = '-' || isAsciiDigit c then parseJsonNumber (c :: rest)
      else .error .syntaxError

/-- Comma-separated array elements followed by `]`. -/
def parseJsonElements : Nat → List Char →
    Except JsError (List JsValue × List Char)
  | 0, _ => .error .syntaxError
  | fuel + 1, cs =>
    match parseJsonValue fuel cs with
    | .error err => .error err
    | .ok (v, rem) =>
      match skipJsonWs rem with
      | ',' :: more =>
        (match parseJsonElements fuel more with
         | .error err => .error err
         | .ok (vs, rem') => .ok (v :: vs, rem'))
      | ']' :: rem' => .ok ([v], rem')
      | _ => .error .syntaxError

/-- Comma-separated `"key": value` members followed by `}`. -/
def parseJsonMembers : Nat → List Char →
    Except JsError (List (String × JsValue) × List Char)
  | 0, _ => .error .syntaxError
  | fuel + 1, cs =>
    match skipJsonWs cs with
    | '"' :: rest =>
      (match parseJsonStringAux rest with
       | .error err => .error err
       | .ok (key, afterKey) =>
         match skipJsonWs afterKey with
         | ':' :: afterColon =>
           (match parseJsonValue fuel afterColon with
            | .error err => .error err
            | .ok (v, rem) =>
              match skipJsonWs rem with
              | ',' :: more =>
                (match parseJsonMembers fuel more with
                 | .error err => .error err
                 | .ok (fs, rem') => .ok ((String.mk key, v) :: fs, rem'))
              | '}' :: rem' => .ok ([(String.mk key, v)], rem')
              | _ => .error .syntaxError)
         | _ => .error .syntaxError)
    | _ => .error .syntaxError

end

/-- `JSON.parse`: a complete value with only whitespace after it. -/
def jsonParse (s : String) : Except JsError JsValue :=
  match parseJsonValue (s.data.length + 1) s.data with
  | .error err => .error err
  | .ok (v, rest) =>
    if (skipJsonWs rest).isEmpty then .ok v else .error .syntaxError

/-! ## generateTypeFromJSON (cli.ts lines 172-190)

The json-to-ts npm library is an external dependency, not part of this
repository.  It is abstracted as a function parameter: it receives the
inference state (its `propertyFormatter` callback is the stateful
`normalizePropertyName`, so the library call can grow the property
registry), the root name and the parsed value, and returns the generated
interface texts or fails.  Mutations the library performs before failing
are not observable through this abstraction; no claim depends on them. -/

def JsonToTsFn : Type :=
  InferState → String → JsValue → Except JsError (InferState × List String)

/-- Scan for `\bexport\s+` occurrences, tracking whether the previous
character was a word character (the `\b` boundary).  Fuelled like the other
regex scans. -/
def removeExportAux : Nat → Bool → List Char → List Char
  | 0, _, cs => cs
  | _ + 1, _, [] => []
  | fuel + 1, prevWord, c :: cs =>
    if !prevWord && "export".data.isPrefixOf (c :: cs) &&
        !(((c :: cs).drop 6).takeWhile isJsWhitespace).isEmpty then
      removeExportAux fuel false (((c :: cs).drop 6).dropWhile isJsWhitespace)
    else c :: removeExportAux fuel (isWordChar c) cs

/-- `type.replace(/\bexport\s+/g, "")`. -/
def removeExport (s : String) : String :=
  String.mk (removeExportAux s.data.length false s.data)

/-- The per-call dedup loop of `generateTypeFromJSON`: a `Map` keyed by the
hash of the export-stripped text, first entry wins.  (The source's
`replace(/^interface/, "interface")` on the stored value is the identity
and is not modelled.) -/
def dedupTypes : List String → List (String × String) → List (String × String)
  | [], acc => acc
  | t :: rest, acc =>
    let h := hashType (removeExport t)
    if acc.any (fun p => p.1 == h) then dedupTypes rest acc
    else dedupTypes rest (acc ++ [(h, t)])

def generateTypeFromJSON (jsonTS : JsonToTsFn) (st : InferState)
    (name : String) (data : JsValue) :
    Except JsError (InferState × String) :=
  match jsonTS st name data with
  | .error err => .error err
  | .ok (st', types) =>
    .ok (st', String.intercalate "\n" ((dedupTypes types []).map Prod.snd))

/-! ## generateTypeFromData (cli.ts lines 192-228) -/

/-- The `data: string | object` parameter. -/
inductive JsData where
  | str (s : String)
  | obj (v : JsValue)

def containsSublist : List Char → List Char → Bool
  | [], needle => needle.isEmpty
  | c :: rest, needle => needle.isPrefixOf (c :: rest) || containsSublist rest needle

/-- `mimeType?.includes("application/x-www-form-urlencoded")`. -/
def mimeIsFormUrlencoded : Option String → Bool
  | none => false
  | some m => containsSublist m.data "application/x-www-form-urlencoded".data

/-- The check `!parsed || typeof parsed !== "object"` (cli.ts line 206): a
JSON value passes iff it is an array or an object.  `null` is falsy and the
scalars either are falsy or have a non-object `typeof`, so each of them
takes the throw branch; arrays and objects are always truthy with `typeof`
equal to "object". -/
def isObjectLike : JsValue → Bool
  | .arr _ => true
  | .obj _ => true
  | _ => false

/-- The `try` body of `generateTypeFromData`: each `throw` becomes an
`Except.error`. -/
def generateTypeFromDataCore (jsonTS : JsonToTsFn) (st : InferState)
    (name : String) (data : JsData) (mimeType : Option String) :
    Except JsError (InferState × String) :=
  if mimeIsFormUrlencoded mimeType then
    match data with
    | .str s => .ok (generateTypeFromFormData st name s)
    | .obj _ => .error (.error "Form data must be a string")
  else
    match data with
    | .str s =>
      (match jsonParse s with
       | .error err => .error err
       | .ok parsed =>
         if isObjectLike parsed then generateTypeFromJSON jsonTS st name parsed
         else .error (.error "Invalid JSON: not an object"))
    | .obj v =>
      if isObjectLike v then generateTypeFromJSON jsonTS st name v
      else .error (.error "Invalid JSON: not an object")

/-- `generateTypeFromData` with its catch handler.  On a `SyntaxError` from
parsing string data the text is retried as form data
(`generateTypeFromFormData` is total, so the source's inner catch and its
warn-both branch are unreachable); every other caught error logs a warning
and yields the permissive `type <name> = any;` fallback. -/
def generateTypeFromDataE (jsonTS : JsonToTsFn) (st : InferState)
    (name : String) (data : JsData) (mimeType : Option String) :
    Except JsError (InferState × String) :=
  match generateTypeFromDataCore jsonTS st name data mimeType with
  | .ok r => .ok r
  | .error e =>
    match e, data with
    | .syntaxError, .str s => .ok (generateTypeFromFormData st name s)
    | _, _ =>
      .ok ({ st with warnings := st.warnings ++
          ["Failed to generate type for " ++ name ++ ", fallback to any"] },
        "type " ++ name ++ " = any;")

/-! ## HAR data model (cli.ts lines 27-54) -/

structure HarHeader where
  name : String
  value : String
deriving DecidableEq

structure HarPostData where
  text : Option String
  mimeType : Option String
deriving DecidableEq

structure HarRequest where
  method : String
  url : String
  headers : List HarHeader
  postData : Option HarPostData
deriving DecidableEq

structure HarContent where
  text : Option String
  mimeType : Option String
deriving DecidableEq

structure HarResponse where
  content : Option HarContent
deriving DecidableEq

structure HarEntry where
  request : HarRequest
  response : HarResponse
deriving DecidableEq

/-- The guard `entry.request.postData?.text` is a JS truthiness test: a
missing `postData`, a missing `text` and the empty string all skip the
entry. -/
def requestBodyText (e : HarEntry) : Option String :=
  match e.request.postData with
  | none => none
  | some pd =>
    match pd.text with
    | none => none
    | some t => if t = "" then none else some t

def requestBodyMime (e : HarEntry) : Option String :=
  match e.request.postData with
  | none => none
  | some pd => pd.mimeType

/-- The guard `entry.response?.content?.text`, also a truthiness test. -/
def responseBodyText (e : HarEntry) : Option String :=
  match e.response.content with
  | none => none
  | some c =>
    match c.text with
    | none => none
    | some t => if t = "" then none else some t

def responseBodyMime (e : HarEntry) : Option String :=
  match e.response.content with
  | none => none
  | some c => c.mimeType

/-! ## URL parsing (Node's WHATWG `new URL`)

Modelled for `scheme://host[/path][?query][#fragment]` inputs, the form
taken by every absolute URL this tool processes.  Other absolute syntaxes
(e.g. `http:host` with no slashes) are outside the modelled fragment.  A
string without a valid scheme followed by `://` fails to parse, exactly as
`new URL` throws a TypeError on a relative URL. -/

structure URLRec where
  scheme : String
  host : String
  pathname : String
  searchParams : List (String × String)
deriving DecidableEq

def URLRec.origin (u : URLRec) : String :=
  u.scheme ++ "://" ++ u.host

def parseURL (s : String) : Option URLRec :=
  let cs := s.data
  let scheme := cs.takeWhile isAsciiAlpha
  let rest := cs.dropWhile isAsciiAlpha
  if scheme.isEmpty then none
  else if "://".data.isPrefixOf rest then
    let rest1 := rest.drop 3
    let host := rest1.takeWhile (fun c => c ≠ '/' && c ≠ '?' && c ≠ '#')
    let rest2 := rest1.dropWhile (fun c => c ≠ '/' && c ≠ '?' && c ≠ '#')
    if host.isEmpty then none
    else
      let path := rest2.takeWhile (fun c => c ≠ '?' && c ≠ '#')
      let rest3 := rest2.dropWhile (fun c => c ≠ '?' && c ≠ '#')
      let query : List Char :=
        match rest3 with
        | '?' :: qs => qs.takeWhile (fun c => c ≠ '#')
        | _ => []
      some { scheme := String.mk scheme, host := String.mk host,
             pathname := if path.isEmpty then "/" else String.mk path,
             searchParams := parseSearchParamsList query }
  else none

/-! ## getResourceName (cli.ts lines 85-88) -/

def getResourceName (url : URLRec) : String :=
  let pathParts :=
    ((splitOnSep '/' url.pathname.data []).map String.mk).filter (fun p => p ≠ "")
  match pathParts.getLast? with
  | some p => p
  | none => "root"

/-! ## The type deduplication registry (cli.ts lines 97-101, 340-405)

`typeRegistry` is a `Map<string, TypeEntry>` keyed by the candidate name;
the hash probe walks `Array.from(typeRegistry.values())` in insertion
order.  The registration step appears twice inline in the source (request
bodies and response bodies); it is factored here as `registerType`. -/

structure TypeEntry where
  name : String
  definition : String
  hash : String
deriving DecidableEq

/-- `Map.set`: replace in place if the key exists, else append. -/
def typeRegSet (reg : List TypeEntry) (e : TypeEntry) : List TypeEntry :=
  if reg.any (fun t => t.name == e.name) then
    reg.map (fun t => if t.name == e.name then e else t)
  else reg ++ [e]

/--
```
const hash = hashType(definition);
let existingType = Array.from(typeRegistry.values()).find((t) => t.hash === hash);
if (!existingType || !mergeTypes) {
  typeRegistry.set(typeName, { name: typeName, definition, hash });
  output += `\nexport ${definition}\n`;      // caller emits when isNew
  bodyType = typeName;
} else {
  bodyType = existingType.name;
}
```
Returns the updated registry, the resolved name, and whether the definition
was newly emitted. -/
def registerType (mergeTypes : Bool) (reg : List TypeEntry)
    (typeName definition : String) : List TypeEntry × String × Bool :=
  let hash := hashType definition
  match reg.find? (fun t => t.hash == hash) with
  | some existingType =>
    if mergeTypes then (reg, existingType.name, false)
    else (typeRegSet reg { name := typeName, definition := definition, hash := hash },
      typeName, true)
  | none =>
    (typeRegSet reg { name := typeName, definition := definition, hash := hash },
      typeName, true)

/-! ## Endpoint grouping (cli.ts lines 284-299) -/

/-- `entry.request.url.startsWith("http")`, on the character lists. -/
def urlIsHttpPrefixed (e : HarEntry) : Bool :=
  "http".data.isPrefixOf e.request.url.data

def filterHttpEntries (entries : List HarEntry) : List HarEntry :=
  entries.filter urlIsHttpPrefixed

/-- Append `e` to the group keyed `key`, creating it at the end on first
occurrence (JS `Map` preserves first-seen key order). -/
def groupUpsert (groups : List (String × List HarEntry)) (key : String)
    (e : HarEntry) : List (String × List HarEntry) :=
  if groups.any (fun g => g.1 == key) then
    groups.map (fun g => if g.1 == key then (g.1, g.2 ++ [e]) else g)
  else groups ++ [(key, [e])]

/-- The grouping loop; `new URL(entry.request.url)` throwing aborts the
whole run (the error propagates to `generateFromHar`'s outer catch, which
logs and rethrows). -/
def groupEntriesAux (groups : List (String × List HarEntry)) :
    List HarEntry → Except String (List (String × List HarEntry))
  | [] => .ok groups
  | e :: rest =>
    match parseURL e.request.url with
    | none => .error "Invalid URL"
    | some url =>
      groupEntriesAux
        (groupUpsert groups (e.request.method ++ "_" ++ getResourceName url) e) rest

def groupEndpoints (entries : List HarEntry) :
    Except String (List (String × List HarEntry)) :=
  groupEntriesAux [] (filterHttpEntries entries)

/-! ## Per-group processing (cli.ts lines 301-441)

The generator state threads the inference state, the type registry, and the
output.  The output is modelled as the list of emitted type-declaration
chunks, in emission order (the source appends each chunk to one output
string; the constant SDK preamble and the per-group function templates are
the out-of-scope string assembly). -/

structure GenState where
  infer : InferState
  typeReg : List TypeEntry
  output : List String
deriving DecidableEq

def initialGenState : GenState :=
  { infer := { propReg := [], warnings := [] }, typeReg := [], output := [] }

/-- Everything `processGroup` computes for one endpoint group besides the
threaded state: the derived resource, the produced params/body/response
type names, and the params interface (name and emitted chunk) when at least
one query key was observed. -/
structure GroupResult where
  resource : String
  paramsType : String
  paramsChunk : Option (String × String)
  bodyType : String
  responseType : String
deriving DecidableEq

/-- One `Set.add` on the recorded value set of a query key (value sets are
recorded but only key presence drives the emitted fields). -/
def paramUpsert (acc : List (String × List String)) (k v : String) :
    List (String × List String) :=
  if acc.any (fun p => p.1 == k) then
    acc.map (fun p =>
      if p.1 == k then (p.1, if p.2.contains v then p.2 else p.2 ++ [v]) else p)
  else acc ++ [(k, [v])]

def foldParams (acc : List (String × List String)) :
    List (String × String) → List (String × List String)
  | [] => acc
  | (k, v) :: rest => foldParams (paramUpsert acc k v) rest

/-- The `allQueryParams` collection loop over the group's entries. -/
def collectQueryParams (acc : List (String × List String)) :
    List HarEntry → Except String (List (String × List String))
  | [] => .ok acc
  | e :: rest =>
    match parseURL e.request.url with
    | none => .error "Invalid URL"
    | some entryUrl => collectQueryParams (foldParams acc entryUrl.searchParams) rest

/-- The field lines of the params interface; each key runs through the
stateful `normalizePropertyName`. -/
def paramFieldLines (st : InferState) :
    List (String × List String) → InferState × List String
  | [] => (st, [])
  | (k, _) :: rest =>
    let p := normalizePropertyName st.propReg k
    let r := paramFieldLines { st with propReg := p.1 } rest
    (r.1, ("  " ++ p.2 ++ "?: string | number | boolean;") :: r.2)

/-- One iteration of the request-body loop (cli.ts lines 342-368). -/
def processBodyStep (jsonTS : JsonToTsFn) (mergeTypes : Bool)
    (requestTypeName : String) (st : GenState) (bodyType : String)
    (e : HarEntry) : Except String (GenState × String) :=
  match requestBodyText e with
  | none => .ok (st, bodyType)
  | some txt =>
    let typeName := requestTypeName ++
      (if st.typeReg.length = 0 then "" else natToDecimal st.typeReg.length)
    match generateTypeFromDataE jsonTS st.infer typeName (.str txt)
        (requestBodyMime e) with
    | .error _ =>
      -- no try/catch wraps the request-body loop in the source; an
      -- inference error would escape the group (provably none occurs)
      .error "uncaught error in request body inference"
    | .ok (inf, definition) =>
      let r := registerType mergeTypes st.typeReg typeName definition
      .ok ({ st with
              infer := inf,
              typeReg := r.1,
              output := st.output ++
                (if r.2.2 then ["\nexport " ++ definition ++ "\n"] else []) },
        r.2.1)

def processBodies (jsonTS : JsonToTsFn) (mergeTypes : Bool)
    (requestTypeName : String) (st : GenState) (bodyType : String) :
    List HarEntry → Except String (GenState × String)
  | [] => .ok (st, bodyType)
  | e :: rest =>
    match processBodyStep jsonTS mergeTypes requestTypeName st bodyType e with
    | .error err => .error err
    | .ok (st', bodyType') =>
      processBodies jsonTS mergeTypes requestTypeName st' bodyType' rest

/-- One iteration of the response loop (cli.ts lines 372-405).  Unlike the
request loop this one is wrapped in a per-entry try/catch that logs a
warning and keeps going. -/
def processResponseStep (jsonTS : JsonToTsFn) (mergeTypes : Bool)
    (responseTypeName : String) (st : GenState) (responseType : String)
    (e : HarEntry) : GenState × String :=
  match responseBodyText e with
  | none => (st, responseType)
  | some txt =>
    let typeName := responseTypeName ++
      (if st.typeReg.length = 0 then "" else natToDecimal st.typeReg.length)
    match generateTypeFromDataE jsonTS st.infer typeName (.str txt)
        (responseBodyMime e) with
    | .error _ =>
      ({ st with infer := { st.infer with warnings := st.infer.warnings ++
          ["Failed to parse response for " ++ e.request.url] } }, responseType)
    | .ok (inf, definition) =>
      let r := registerType mergeTypes st.typeReg typeName definition
      ({ st with
          infer := inf,
          typeReg := r.1,
          output := st.output ++
            (if r.2.2 then ["\nexport " ++ definition ++ "\n"] else []) },
        "ResponseBase<" ++ r.2.1 ++ ">")

def processResponses (jsonTS : JsonToTsFn) (mergeTypes : Bool)
    (responseTypeName : String) (st : GenState) (responseType : String) :
    List HarEntry → GenState × String
  | [] => (st, responseType)
  | e :: rest =>
    let r := processResponseStep jsonTS mergeTypes responseTypeName st responseType e
    processResponses jsonTS mergeTypes responseTypeName r.1 r.2 rest

/-- Processing of one endpoint group (cli.ts lines 302-441, excluding the
out-of-scope function-body template). -/
def processGroup (jsonTS : JsonToTsFn) (mergeTypes : Bool) (typePrefix : String)
    (st : GenState) (groupEntries : List HarEntry) :
    Except String (GenState × GroupResult) :=
  match groupEntries with
  | [] => .error "empty group"   -- unreachable: grouping creates nonempty groups
  | firstEntry :: _ =>
    match parseURL firstEntry.request.url with
    | none => .error "Invalid URL"
    | some url =>
      let resource := getResourceName url
      let baseTypeName := normalizeTypeName resource
      let requestTypeName := typePrefix ++ baseTypeName ++ "Request"
      let responseTypeName := typePrefix ++ baseTypeName ++ "Response"
      let paramsTypeName := typePrefix ++ baseTypeName ++ "Params"
      match collectQueryParams [] groupEntries with
      | .error err => .error err
      | .ok allQueryParams =>
        let step1 : GenState × String × Option (String × String) :=
          if allQueryParams.isEmpty then
            (st, "\x7b[key: string]: string | number | boolean | undefined\x7d", none)
          else
            let r := paramFieldLines st.infer allQueryParams
            let chunk := "\nexport " ++ ("interface " ++ paramsTypeName ++ " \x7b\n" ++
              String.intercalate "\n" r.2 ++ "\n\x7d") ++ "\n"
            ({ st with
                infer := r.1,
                output := st.output ++ [chunk] },
             paramsTypeName, some (paramsTypeName, chunk))
        match processBodies jsonTS mergeTypes requestTypeName step1.1 "undefined"
            groupEntries with
        | .error err => .error err
        | .ok (st2, bodyType) =>
          let r := processResponses jsonTS mergeTypes responseTypeName st2
            "ResponseBase<unknown>" groupEntries
          .ok (r.1,
            { resource := resource,
              paramsType := step1.2.1,
              paramsChunk := step1.2.2,
              bodyType := bodyType,
              responseType := r.2 })

def processGroups (jsonTS : JsonToTsFn) (mergeTypes : Bool) (typePrefix : String)
    (st : GenState) : List (String × List HarEntry) →
    Except String (GenState × List GroupResult)
  | [] => .ok (st, [])
  | (_, g) :: rest =>
    match processGroup jsonTS mergeTypes typePrefix st g with
    | .error err => .error err
    | .ok (st', r) =>
      match processGroups jsonTS mergeTypes typePrefix st' rest with
      | .error err => .error err
      | .ok (stF, rs) => .ok (stF, r :: rs)

/-- The core of `generateFromHar` (cli.ts lines 230-451): reset registries,
filter to `http`-prefixed URLs, group, process each group.  File reading,
HAR validation (skippable), the constant output preamble, prettier
formatting and file writing are external collaborators. -/
def generateFromHar (jsonTS : JsonToTsFn) (mergeTypes : Bool)
    (typePrefix : String) (entries : List HarEntry) :
    Except String (GenState × List GroupResult) :=
  match groupEndpoints entries with
  | .error err => .error err
  | .ok groups => processGroups jsonTS mergeTypes typePrefix initialGenState groups

/-! ## Concrete fixtures used to exercise the model

`jsonTSStub` instantiates the abstracted json-to-ts library with a trivial
implementation; the concrete scenarios below only use form-encoded or
malformed bodies, so the stub is never actually invoked by them. -/

def jsonTSStub : JsonToTsFn :=
  fun st name _ => .ok (st, ["interface " ++ name ++ " \x7b\n\x7d"])

/-- A capture entry with a relative URL that happens to start with "http". -/
def relHttpEntry : HarEntry :=
  { request := { method := "GET", url := "httpRelative/x", headers := [],
                 postData := none },
    response := { content := none } }

/-- `GET https://api.example.com/users?x=1`, no body. -/
def getUsersEntry : HarEntry :=
  { request := { method := "GET", url := "https://api.example.com/users?x=1",
                 headers := [], postData := none },
    response := { content := none } }

/-- `POST https://api.example.com/users?y=2`, no body. -/
def postUsersEntry : HarEntry :=
  { request := { method := "POST", url := "https://api.example.com/users?y=2",
                 headers := [], postData := none },
    response := { content := none } }

/-- `POST https://api.example.com/items` with a form-encoded body. -/
def itemsEntry (body : String) : HarEntry :=
  { request := { method := "POST", url := "https://api.example.com/items",
                 headers := [],
                 postData := some { text := some body,
                                    mimeType := some "application/x-www-form-urlencoded" } },
    response := { content := none } }

/-- `POST https://api.example.com/items` without a body. -/
def itemsEntryNoBody : HarEntry :=
  { request := { method := "POST", url := "https://api.example.com/items",
                 headers := [], postData := none },
    response := { content := none } }

/-! # Theorems -/

/-- C1 (counterexample): inferring from the text `"not json {"` with
declared mime type `application/json` does NOT yield the permissive
fallback alias and logs NO warning: `JSON.parse` raises a `SyntaxError`,
and the catch handler's retry-as-form-data succeeds, producing an interface
with the single normalized key `not_json__` typed `string`. -/
theorem c1_counterexample :
    generateTypeFromDataE jsonTSStub { propReg := [], warnings := [] }
        "NotJson" (.str "not json \x7b") (some "application/json") =
      .ok ({ propReg := [("not json \x7b", "not_json__")], warnings := [] },
        "interface NotJson \x7b\n  not_json__: string;\n\x7d") ∧
    "interface NotJson \x7b\n  not_json__: string;\n\x7d" ≠ "type NotJson = any;" := by
  exact ⟨rfl, by decide⟩

/-- C1 (amended): inferring a type from the text `"not json {"` with
declared mime type `application/json` does not throw and does not abort:
JSON parsing fails with a syntax error, the engine retries the text as form
data, which succeeds and yields an object type with one string-typed field
named from the normalized raw text, with no warning logged. -/
theorem c1_amended_retry_form_data :
    generateTypeFromDataE jsonTSStub { propReg := [], warnings := [] }
        "NotJson" (.str "not json \x7b") (some "application/json") =
      .ok ({ propReg := [("not json \x7b", "not_json__")], warnings := [] },
        "interface NotJson \x7b\n  not_json__: string;\n\x7d") := by
  exact rfl

/-- C5: the boolean classification of form values is NOT "equals true or
false": the regex `/^true|false$/i` matches any value with prefix `true` or
suffix `false`, so `"flag=trueish"` is classified `boolean` where the claim
requires `string` (the claim's positive example is also evaluated). -/
theorem c5_boolean_regex_mismatch :
    generateTypeFromFormData { propReg := [], warnings := [] } "Flags"
        "flag=trueish" =
      ({ propReg := [("flag", "flag")], warnings := [] },
        "interface Flags \x7b\n  flag: boolean;\n\x7d") ∧
    isBooleanLiteral "trueish" = true ∧
    isBooleanLiteral "notfalse" = true ∧
    generateTypeFromFormData { propReg := [], warnings := [] } "T"
        "id=42&active=true&name=bob" =
      ({ propReg := [("id", "id"), ("active", "active"), ("name", "name")],
          warnings := [] },
        "interface T \x7b\n  id: number;\n  active: boolean;\n  name: string;\n\x7d") := by
  exact ⟨rfl, rfl, rfl, rfl⟩

/-- C7: the schema-inference entry point is total — for every inference
state, name, payload (string or object) and declared mime type, and for
every behaviour of the external json-to-ts library, `generateTypeFromData`
never propagates an exception: the catch handler turns every error into a
usable result. -/
theorem c7_generateTypeFromData_never_throws (jsonTS : JsonToTsFn)
    (st : InferState) (name : String) (data : JsData)
    (mimeType : Option String) :
    ∃ r, generateTypeFromDataE jsonTS st name data mimeType = Except.ok r := by
  unfold generateTypeFromDataE
  cases h : generateTypeFromDataCore jsonTS st name data mimeType with
  | ok r => exact ⟨r, rfl⟩
  | error e =>
    cases e with
    | syntaxError =>
      cases data with
      | str s => exact ⟨_, rfl⟩
      | obj v => exact ⟨_, rfl⟩
    | error msg => cases data with
      | str s => exact ⟨_, rfl⟩
      | obj v => exact ⟨_, rfl⟩

/-- C10: the fingerprint's name erasure applies only to `interface`
declarations, not to `type` alias fallbacks: the fingerprints of the two
permissive fallback texts under different candidate names differ, so with
merging enabled both are registered as new (emitted), and the registry
holds both entries afterwards. -/
theorem c10_fallback_aliases_not_merged :
    hashType "type UsersRequest = any;" ≠ hashType "type OrdersRequest = any;" ∧
    (registerType true [] "UsersRequest" "type UsersRequest = any;").2.2 = true ∧
    (registerType true
        (registerType true [] "UsersRequest" "type UsersRequest = any;").1
        "OrdersRequest" "type OrdersRequest = any;").2.2 = true ∧
    (registerType true
        (registerType true [] "UsersRequest" "type UsersRequest = any;").1
        "OrdersRequest" "type OrdersRequest = any;").1.length = 2 := by
  exact ⟨by decide, rfl, rfl, rfl⟩

/-- C4 (counterexample): a capture entry whose URL is not absolute but
starts with "http" is NOT silently excluded — it passes the
`startsWith("http")` filter, `new URL` then throws, and the whole run
aborts. -/
theorem c4_counterexample :
    parseURL "httpRelative/x" = none ∧
    urlIsHttpPrefixed relHttpEntry = true ∧
    generateFromHar jsonTSStub true "" [relHttpEntry] = .error "Invalid URL" := by
  exact ⟨rfl, rfl, rfl⟩

/-! ### Dedup registry lemmas (C2) -/

theorem typeRegSet_of_fresh_key (reg : List TypeEntry) (e : TypeEntry)
    (h : reg.any (fun t => t.name == e.name) = false) :
    typeRegSet reg e = reg ++ [e] := by
  simp only [typeRegSet, h]
  simp

/-- C2: with merging enabled, registering a second definition whose
fingerprint equals that of an already-registered one returns the first
entry's name with `isNewlyEmitted = false` and leaves the registry
unchanged (nothing is re-emitted); the first registration returned the
candidate name with `true`. -/
theorem c2_register_merge_dedups (r0 : List TypeEntry) (n1 d1 n2 d2 : String)
    (hh : hashType d2 = hashType d1)
    (hfresh : r0.find? (fun t => t.hash == hashType d1) = none)
    (hkey : r0.any (fun t => t.name == n1) = false) :
    registerType true r0 n1 d1 =
      (r0 ++ [{ name := n1, definition := d1, hash := hashType d1 }], n1, true) ∧
    registerType true (r0 ++ [{ name := n1, definition := d1, hash := hashType d1 }])
        n2 d2 =
      (r0 ++ [{ name := n1, definition := d1, hash := hashType d1 }], n1, false) := by
  constructor
  · simp only [registerType]
    rw [hfresh]
    rw [typeRegSet_of_fresh_key r0 _ hkey]
  · simp only [registerType, hh]
    rw [List.find?_append, hfresh]
    simp [List.find?]

/-- C2 witness: two structurally identical interface definitions under
different names collide on the fingerprint; the registry returns the first
name on the second call. -/
theorem c2_register_merge_dedups_witness :
    hashType "interface B \x7b id: number; \x7d" = hashType "interface A \x7b id: number; \x7d" ∧
    registerType true
        ([] ++ [{ name := "A", definition := "interface A \x7b id: number; \x7d",
                  hash := hashType "interface A \x7b id: number; \x7d" }])
        "B" "interface B \x7b id: number; \x7d" =
      ([] ++ [{ name := "A", definition := "interface A \x7b id: number; \x7d",
                hash := hashType "interface A \x7b id: number; \x7d" }], "A", false) := by
  exact ⟨by decide,
    (c2_register_merge_dedups [] "A" "interface A \x7b id: number; \x7d"
      "B" "interface B \x7b id: number; \x7d" (by decide) rfl rfl).2⟩

/-! ### Request-body loop lemmas (C8) -/

theorem processBodies_append (jsonTS : JsonToTsFn) (mergeTypes : Bool)
    (requestTypeName : String) (st : GenState) (bodyType : String)
    (l1 l2 : List HarEntry) :
    processBodies jsonTS mergeTypes requestTypeName st bodyType (l1 ++ l2) =
      match processBodies jsonTS mergeTypes requestTypeName st bodyType l1 with
      | .error err => .error err
      | .ok (st', bodyType') =>
        processBodies jsonTS mergeTypes requestTypeName st' bodyType' l2 := by
  induction l1 generalizing st bodyType with
  | nil => simp [processBodies]
  | cons e rest ih =>
    simp only [List.cons_append, processBodies]
    cases processBodyStep jsonTS mergeTypes requestTypeName st bodyType e with
    | error err => rfl
    | ok p => exact ih p.1 p.2

theorem processBodies_of_no_bodies (jsonTS : JsonToTsFn) (mergeTypes : Bool)
    (requestTypeName : String) (st : GenState) (bodyType : String)
    (ys : List HarEntry) (h : ∀ y ∈ ys, requestBodyText y = none) :
    processBodies jsonTS mergeTypes requestTypeName st bodyType ys =
      .ok (st, bodyType) := by
  induction ys with
  | nil => rfl
  | cons y rest ih =>
    have hy : requestBodyText y = none := h y (List.mem_cons_self y rest)
    simp only [processBodies, processBodyStep, hy]
    exact ih (fun z hz => h z (List.mem_cons_of_mem y hz))

/-- C8: in a group, the representative request-body type is the one
resolved for the last entry (in capture order) that carries a body: if the
entries after `e` carry no bodies, the loop's final result is exactly the
result of processing `e` from the state accumulated on the prefix — and
that result does not depend on the previously accumulated `bodyType`. -/
theorem c8_last_registered_body_wins (jsonTS : JsonToTsFn) (mergeTypes : Bool)
    (requestTypeName : String) (st st1 st2 : GenState)
    (bt0 bt1 bt2 : String) (xs ys : List HarEntry) (e : HarEntry) (txt : String)
    (he : requestBodyText e = some txt)
    (hys : ∀ y ∈ ys, requestBodyText y = none)
    (hmid : processBodies jsonTS mergeTypes requestTypeName st bt0 xs =
      .ok (st1, bt1))
    (hstep : processBodyStep jsonTS mergeTypes requestTypeName st1 bt1 e =
      .ok (st2, bt2)) :
    processBodies jsonTS mergeTypes requestTypeName st bt0 (xs ++ e :: ys) =
      .ok (st2, bt2) ∧
    ∀ bt', processBodyStep jsonTS mergeTypes requestTypeName st1 bt' e =
      .ok (st2, bt2) := by
  constructor
  · rw [processBodies_append, hmid]
    simp only [processBodies, hstep]
    exact processBodies_of_no_bodies jsonTS mergeTypes requestTypeName st2 bt2 ys hys
  · intro bt'
    simp only [processBodyStep, he] at hstep ⊢
    exact hstep

/-- C8 witness: a group with two form-encoded bodies followed by a bodiless
entry; the final body type is the one registered for the second (last
body-carrying) entry, independently of the previously accumulated body
type. -/
theorem c8_last_registered_body_wins_witness :
    (∀ y ∈ [itemsEntryNoBody], requestBodyText y = none) ∧
    processBodies jsonTSStub true "ItemsRequest" initialGenState "undefined"
        ([itemsEntry "a=1"] ++ itemsEntry "b=2" :: [itemsEntryNoBody]) =
      .ok ({ infer := { propReg := [("a", "a"), ("b", "b")], warnings := [] },
             typeReg := [{ name := "ItemsRequest",
                           definition := "interface ItemsRequest \x7b\n  a: number;\n\x7d",
                           hash := "4tla6s" },
                         { name := "ItemsRequest1",
                           definition := "interface ItemsRequest1 \x7b\n  b: number;\n\x7d",
                           hash := "6yfz1v" }],
             output := ["\nexport interface ItemsRequest \x7b\n  a: number;\n\x7d\n",
                        "\nexport interface ItemsRequest1 \x7b\n  b: number;\n\x7d\n"] },
        "ItemsRequest1") ∧
    processBodyStep jsonTSStub true "ItemsRequest"
        { infer := { propReg := [("a", "a")], warnings := [] },
          typeReg := [{ name := "ItemsRequest",
                        definition := "interface ItemsRequest \x7b\n  a: number;\n\x7d",
                        hash := "4tla6s" }],
          output := ["\nexport interface ItemsRequest \x7b\n  a: number;\n\x7d\n"] }
        "SomeOtherAccumulatedBodyType" (itemsEntry "b=2") =
      .ok ({ infer := { propReg := [("a", "a"), ("b", "b")], warnings := [] },
             typeReg := [{ name := "ItemsRequest",
                           definition := "interface ItemsRequest \x7b\n  a: number;\n\x7d",
                           hash := "4tla6s" },
                         { name := "ItemsRequest1",
                           definition := "interface ItemsRequest1 \x7b\n  b: number;\n\x7d",
                           hash := "6yfz1v" }],
             output := ["\nexport interface ItemsRequest \x7b\n  a: number;\n\x7d\n",
                        "\nexport interface ItemsRequest1 \x7b\n  b: number;\n\x7d\n"] },
        "ItemsRequest1") := by
  refine ⟨by decide, ?_, ?_⟩
  · exact (c8_last_registered_body_wins jsonTSStub true "ItemsRequest"
      initialGenState _ _ "undefined" "ItemsRequest" "ItemsRequest1"
      [itemsEntry "a=1"] [itemsEntryNoBody] (itemsEntry "b=2") "b=2"
      rfl (by decide) rfl rfl).1
  · exact (c8_last_registered_body_wins jsonTSStub true "ItemsRequest"
      initialGenState _ _ "undefined" "ItemsRequest" "ItemsRequest1"
      [itemsEntry "a=1"] [itemsEntryNoBody] (itemsEntry "b=2") "b=2"
      rfl (by decide) rfl rfl).2 "SomeOtherAccumulatedBodyType"

/-! ### Endpoint grouper lemmas (C4) -/

theorem groupEntriesAux_member_property (P : HarEntry → Bool)
    (groups : List (String × List HarEntry)) (entries : List HarEntry)
    (result : List (String × List HarEntry))
    (hacc : ∀ kg ∈ groups, ∀ x ∈ kg.2, P x = true)
    (hin : ∀ x ∈ entries, P x = true)
    (h : groupEntriesAux groups entries = .ok result) :
    ∀ kg ∈ result, ∀ x ∈ kg.2, P x = true := by
  induction entries generalizing groups with
  | nil =>
    simp only [groupEntriesAux] at h
    cases h
    exact hacc
  | cons e rest ih =>
    simp only [groupEntriesAux] at h
    cases hu : parseURL e.request.url with
    | none => rw [hu] at h; cases h
    | some url =>
      rw [hu] at h
      refine ih _ ?_ (fun x hx => hin x (List.mem_cons_of_mem e hx)) h
      intro kg hkg x hx
      have hPe : P e = true := hin e (List.mem_cons_self e rest)
      unfold groupUpsert at hkg
      by_cases hany : (groups.any fun g =>
          g.1 == e.request.method ++ "_" ++ getResourceName url) = true
      · rw [if_pos hany] at hkg
        obtain ⟨g, hg, hgeq⟩ := List.mem_map.mp hkg
        by_cases hk : (g.1 == e.request.method ++ "_" ++ getResourceName url) = true
        · rw [if_pos hk] at hgeq
          subst hgeq
          simp only at hx
          rcases List.mem_append.mp hx with hx1 | hx2
          · exact hacc g hg x hx1
          · rw [List.mem_singleton.mp hx2]; exact hPe
        · rw [if_neg hk] at hgeq
          subst hgeq
          exact hacc g hg x hx
      · rw [if_neg hany] at hkg
        rcases List.mem_append.mp hkg with hkg1 | hkg2
        · exact hacc kg hkg1 x hx
        · rw [List.mem_singleton.mp hkg2] at hx
          simp only at hx
          rw [List.mem_singleton.mp hx]
          exact hPe

/-- C4 (amended): every capture entry whose URL does not start with "http"
is silently excluded by the grouper — the groups computed with and without
it are identical, and it is a member of no group.  (A non-absolute URL that
does start with "http" instead aborts the run, see the counterexample.) -/
theorem c4_non_http_entries_excluded (xs ys : List HarEntry) (e : HarEntry)
    (he : urlIsHttpPrefixed e = false) :
    groupEndpoints (xs ++ e :: ys) = groupEndpoints (xs ++ ys) ∧
    ∀ groups, groupEndpoints (xs ++ e :: ys) = .ok groups →
      ∀ kg ∈ groups, e ∉ kg.2 := by
  have hfilter : filterHttpEntries (xs ++ e :: ys) = filterHttpEntries (xs ++ ys) := by
    simp only [filterHttpEntries, List.filter_append, List.filter_cons, he]
    simp
  constructor
  · simp only [groupEndpoints, hfilter]
  · intro groups hok kg hkg hmem
    have hall : ∀ kg ∈ groups, ∀ x ∈ kg.2, urlIsHttpPrefixed x = true := by
      refine groupEntriesAux_member_property urlIsHttpPrefixed [] _ groups
        (by intro kg hkg; cases hkg) ?_ hok
      intro x hx
      exact (List.mem_filter.mp hx).2
    have := hall kg hkg e hmem
    rw [he] at this
    cases this

/-- C4 witness: a relative URL not starting with "http" is dropped: the
run over `[getUsersEntry, e]` equals the run over `[getUsersEntry]`, and
`e` is in no group. -/
theorem c4_non_http_entries_excluded_witness :
    urlIsHttpPrefixed
      { request := { method := "GET", url := "/users/7", headers := [],
                     postData := none },
        response := { content := none } } = false ∧
    groupEndpoints ([getUsersEntry] ++
        { request := { method := "GET", url := "/users/7", headers := [],
                       postData := none },
          response := { content := none } } :: []) =
      groupEndpoints ([getUsersEntry] ++ []) ∧
    ∀ groups, groupEndpoints ([getUsersEntry] ++
        { request := { method := "GET", url := "/users/7", headers := [],
                       postData := none },
          response := { content := none } } :: []) = .ok groups →
      ∀ kg ∈ groups,
        ({ request := { method := "GET", url := "/users/7", headers := [],
                        postData := none },
           response := { content := none } } : HarEntry) ∉ kg.2 := by
  refine ⟨by decide, ?_, ?_⟩
  · exact (c4_non_http_entries_excluded [getUsersEntry] [] _ (by decide)).1
  · exact (c4_non_http_entries_excluded [getUsersEntry] [] _ (by decide)).2

/-! ### Identifier normalizer lemmas (C3)

The uniqueness loop appends `_1`, `_2`, ... to the sanitized base.  The
candidate sequence is injective (decimal rendering is injective on positive
counters), so within `|values| + 1` attempts a free candidate exists, and
the returned identifier is never an already-used value. -/

def decDigitValue (c : Char) : Nat := c.toNat - 48

def decValue (cs : List Char) : Nat :=
  cs.foldl (fun acc c => 10 * acc + decDigitValue c) 0

theorem decValue_append_digit (l : List Char) (c : Char) :
    decValue (l ++ [c]) = 10 * decValue l + decDigitValue c := by
  simp [decValue, List.foldl_append]

theorem decDigitValue_decimalDigit (m : Nat) (h : m < 10) :
    decDigitValue (decimalDigit m) = m := by
  interval_cases m <;> decide

theorem decValue_natToDecimalAux (fuel n : Nat) (h : n ≤ fuel) :
    decValue (natToDecimalAux fuel n) = n := by
  induction fuel generalizing n with
  | zero =>
    interval_cases n
    rfl
  | succ fuel ih =>
    cases n with
    | zero => rfl
    | succ m =>
      have hdiv : (m + 1) / 10 ≤ fuel := by
        have := Nat.div_lt_self (Nat.succ_pos m) (by omega : 1 < 10)
        omega
      have hmod : (m + 1) % 10 < 10 := Nat.mod_lt _ (by omega)
      calc decValue (natToDecimalAux (fuel + 1) (m + 1))
          = decValue (natToDecimalAux fuel ((m + 1) / 10) ++
              [decimalDigit ((m + 1) % 10)]) := rfl
        _ = 10 * decValue (natToDecimalAux fuel ((m + 1) / 10)) +
              decDigitValue (decimalDigit ((m + 1) % 10)) :=
            decValue_append_digit _ _
        _ = 10 * ((m + 1) / 10) + (m + 1) % 10 := by
            rw [ih _ hdiv, decDigitValue_decimalDigit _ hmod]
        _ = m + 1 := Nat.div_add_mod (m + 1) 10

theorem natToDecimal_injective : Function.Injective natToDecimal := by
  intro a b h
  unfold natToDecimal at h
  by_cases ha : a = 0 <;> by_cases hb : b = 0
  · omega
  · rw [if_pos ha, if_neg hb] at h
    have hdata := congrArg String.data h
    have hv := congrArg decValue hdata
    have : decValue "0".data = 0 := rfl
    rw [this, decValue_natToDecimalAux b b (le_refl b)] at hv
    omega
  · rw [if_neg ha, if_pos hb] at h
    have hdata := congrArg String.data h
    have hv := congrArg decValue hdata
    have : decValue "0".data = 0 := rfl
    rw [decValue_natToDecimalAux a a (le_refl a), this] at hv
    omega
  · rw [if_neg ha, if_neg hb] at h
    have hdata := congrArg String.data h
    have hv := congrArg decValue hdata
    rw [decValue_natToDecimalAux a a (le_refl a),
      decValue_natToDecimalAux b b (le_refl b)] at hv
    exact hv

theorem natToDecimalAux_ne_nil (n : Nat) (h : 0 < n) :
    natToDecimalAux n n ≠ [] := by
  cases n with
  | zero => omega
  | succ m =>
    show natToDecimalAux m ((m + 1) / 10) ++ [decimalDigit ((m + 1) % 10)] ≠ []
    simp

theorem natToDecimal_data_length_pos (n : Nat) (h : 0 < n) :
    0 < (natToDecimal n).data.length := by
  unfold natToDecimal
  rw [if_neg (by omega : ¬ n = 0)]
  cases hcase : natToDecimalAux n n with
  | nil => exact absurd hcase (natToDecimalAux_ne_nil n h)
  | cons c cs => simp

theorem candidateName_injective (base : String) :
    Function.Injective (candidateName base) := by
  intro j k h
  cases j with
  | zero =>
    cases k with
    | zero => rfl
    | succ k' =>
      exfalso
      have hlen := congrArg (fun s : String => s.data.length) h
      simp only [candidateName, String.data_append, List.length_append] at hlen
      have hu : "_".data.length = 1 := rfl
      rw [hu] at hlen
      have hpos := natToDecimal_data_length_pos (k' + 1) (by omega)
      omega
  | succ j' =>
    cases k with
    | zero =>
      exfalso
      have hlen := congrArg (fun s : String => s.data.length) h
      simp only [candidateName, String.data_append, List.length_append] at hlen
      have hu : "_".data.length = 1 := rfl
      rw [hu] at hlen
      have hpos := natToDecimal_data_length_pos (j' + 1) (by omega)
      omega
    | succ k' =>
      have hdata := congrArg String.data h
      simp only [candidateName, String.data_append, List.append_assoc,
        List.append_cancel_left_eq] at hdata
      have hdec : natToDecimal (j' + 1) = natToDecimal (k' + 1) := String.ext hdata
      have := natToDecimal_injective hdec
      omega

theorem freshName_not_mem (vals : List String) (base : String) :
    freshName vals base ∉ vals := by
  unfold freshName
  cases hfind : ((List.range (vals.length + 1)).map (candidateName base)).find?
      (fun c => !vals.contains c) with
  | some c =>
    have hp := List.find?_some hfind
    simp only [Bool.not_eq_true'] at hp
    simpa using hp
  | none =>
    exfalso
    have hall := List.find?_eq_none.mp hfind
    have hsub : ((List.range (vals.length + 1)).map (candidateName base)).toFinset ⊆
        vals.toFinset := by
      intro x hx
      rw [List.mem_toFinset] at hx
      rw [List.mem_toFinset]
      have := hall x hx
      simpa using this
    have hnodup : ((List.range (vals.length + 1)).map (candidateName base)).Nodup :=
      (List.nodup_range _).map (candidateName_injective base)
    have hcard1 : ((List.range (vals.length + 1)).map (candidateName base)).toFinset.card =
        vals.length + 1 := by
      rw [List.toFinset_card_of_nodup hnodup]
      simp
    have hcard2 := Finset.card_le_card hsub
    have hcard3 := List.toFinset_card_le (l := vals)
    omega

/-- The run-scoped invariant of the identifier registry: raw names are
distinct and assigned identifiers are distinct. -/
def RegistryInv (r : PropertyRegistry) : Prop :=
  (r.map Prod.fst).Nodup ∧ (r.map Prod.snd).Nodup

theorem lookup_none_of_not_mem_keys (r : PropertyRegistry) (a : String)
    (h : r.lookup a = none) : a ∉ r.map Prod.fst := by
  induction r with
  | nil => simp
  | cons p rest ih =>
    obtain ⟨k, w⟩ := p
    rw [List.lookup_cons] at h
    cases hk : (a == k) with
    | true => rw [hk] at h; cases h
    | false =>
      rw [hk] at h
      simp only [List.map_cons, List.mem_cons]
      push_neg
      refine ⟨fun heq => ?_, ih h⟩
      rw [heq] at hk
      simp at hk

theorem lookup_some_mem (r : PropertyRegistry) (a v : String)
    (h : r.lookup a = some v) : (a, v) ∈ r := by
  induction r with
  | nil => cases h
  | cons p rest ih =>
    obtain ⟨k, w⟩ := p
    rw [List.lookup_cons] at h
    cases hk : (a == k) with
    | true =>
      rw [hk] at h
      cases h
      rw [beq_iff_eq] at hk
      subst hk
      exact List.mem_cons_self _ _
    | false =>
      rw [hk] at h
      exact List.mem_cons_of_mem _ (ih h)

theorem lookup_of_mem_of_nodup_keys (r : PropertyRegistry) (a v : String)
    (hnd : (r.map Prod.fst).Nodup) (hmem : (a, v) ∈ r) :
    r.lookup a = some v := by
  induction r with
  | nil => cases hmem
  | cons p rest ih =>
    obtain ⟨k, w⟩ := p
    rw [List.map_cons, List.nodup_cons] at hnd
    rw [List.lookup_cons]
    rcases List.mem_cons.mp hmem with heq | hrest
    · cases heq
      simp
    · have hka : (a == k) = false := by
        by_contra hc
        rw [Bool.not_eq_false, beq_iff_eq] at hc
        apply hnd.1
        rw [← hc]
        exact List.mem_map.mpr ⟨(a, v), hrest, rfl⟩
      rw [hka]
      exact ih hnd.2 hrest

theorem normalizePropertyName_of_lookup_some (r : PropertyRegistry)
    (name u : String) (h : r.lookup name = some u) :
    normalizePropertyName r name = (r, u) := by
  unfold normalizePropertyName
  rw [h]

theorem normalizePropertyName_extends (r : PropertyRegistry) (name : String) :
    ∃ tail, (normalizePropertyName r name).1 = r ++ tail := by
  unfold normalizePropertyName
  cases h : r.lookup name with
  | some u => exact ⟨[], by simp⟩
  | none => exact ⟨_, rfl⟩

theorem normalizePropertyName_mem (r : PropertyRegistry) (name : String) :
    (name, (normalizePropertyName r name).2) ∈ (normalizePropertyName r name).1 := by
  unfold normalizePropertyName
  cases h : r.lookup name with
  | some u =>
    simp only
    exact lookup_some_mem r name u h
  | none =>
    simp only
    exact List.mem_append_right r (List.mem_singleton.mpr rfl)

theorem normalizePropertyName_preserves_inv (r : PropertyRegistry)
    (name : String) (hr : RegistryInv r) :
    RegistryInv (normalizePropertyName r name).1 := by
  unfold normalizePropertyName
  cases h : r.lookup name with
  | some u => exact hr
  | none =>
    constructor
    · rw [List.map_append, List.nodup_append]
      refine ⟨hr.1, by simp, ?_⟩
      intro x hx
      simp only [List.map_cons, List.map_nil, List.mem_singleton]
      intro heq
      rw [heq] at hx
      exact lookup_none_of_not_mem_keys r name h hx
    · rw [List.map_append, List.nodup_append]
      refine ⟨hr.2, by simp, ?_⟩
      intro x hx
      simp only [List.map_cons, List.map_nil, List.mem_singleton]
      intro heq
      rw [heq] at hx
      exact freshName_not_mem (registryValues r) _ hx

theorem nodup_snd_inj (r : PropertyRegistry)
    (hnd : (r.map Prod.snd).Nodup) (a b va vb : String)
    (ha : (a, va) ∈ r) (hb : (b, vb) ∈ r) (hab : a ≠ b) : va ≠ vb := by
  induction r with
  | nil => cases ha
  | cons p rest ih =>
    obtain ⟨k, w⟩ := p
    rw [List.map_cons, List.nodup_cons] at hnd
    rcases List.mem_cons.mp ha with ha1 | ha2 <;>
      rcases List.mem_cons.mp hb with hb1 | hb2
    · exfalso
      apply hab
      have h1 := congrArg Prod.fst ha1
      have h2 := congrArg Prod.fst hb1
      simp only at h1 h2
      rw [h1, h2]
    · intro hcontra
      apply hnd.1
      have h1 := congrArg Prod.snd ha1
      simp only at h1
      rw [← h1, hcontra]
      exact List.mem_map.mpr ⟨(b, vb), hb2, rfl⟩
    · intro hcontra
      apply hnd.1
      have h1 := congrArg Prod.snd hb1
      simp only at h1
      rw [← h1, ← hcontra]
      exact List.mem_map.mpr ⟨(a, va), ha2, rfl⟩
    · exact ih hnd.2 ha2 hb2

/-- C3: within one run the normalizer is injective and stable — from any
registry satisfying the run invariant, normalizing two distinct raw names
in sequence yields distinct identifiers, and re-normalizing the first raw
name afterwards returns exactly the identifier it was first assigned,
without modifying the registry. -/
theorem c3_normalizer_injective_and_stable (r : PropertyRegistry)
    (hr : RegistryInv r) (a b : String) (hab : a ≠ b) :
    (normalizePropertyName (normalizePropertyName r a).1 b).2 ≠
      (normalizePropertyName r a).2 ∧
    normalizePropertyName (normalizePropertyName (normalizePropertyName r a).1 b).1 a =
      ((normalizePropertyName (normalizePropertyName r a).1 b).1,
        (normalizePropertyName r a).2) := by
  have hr1 : RegistryInv (normalizePropertyName r a).1 :=
    normalizePropertyName_preserves_inv r a hr
  have hr2 : RegistryInv
      (normalizePropertyName (normalizePropertyName r a).1 b).1 :=
    normalizePropertyName_preserves_inv _ b hr1
  have hmema : (a, (normalizePropertyName r a).2) ∈ (normalizePropertyName r a).1 :=
    normalizePropertyName_mem r a
  have hmema2 : (a, (normalizePropertyName r a).2) ∈
      (normalizePropertyName (normalizePropertyName r a).1 b).1 := by
    obtain ⟨tail, htail⟩ :=
      normalizePropertyName_extends (normalizePropertyName r a).1 b
    rw [htail]
    exact List.mem_append_left tail hmema
  have hmemb : (b, (normalizePropertyName (normalizePropertyName r a).1 b).2) ∈
      (normalizePropertyName (normalizePropertyName r a).1 b).1 :=
    normalizePropertyName_mem _ b
  constructor
  · exact nodup_snd_inj _ hr2.2 b a _ _ hmemb hmema2 (Ne.symm hab)
  · have hlk := lookup_of_mem_of_nodup_keys _ a
      (normalizePropertyName r a).2 hr2.1 hmema2
    exact normalizePropertyName_of_lookup_some _ a _ hlk

/-- C3 witness: from the empty registry, `id` and `name` resolve to
distinct identifiers, and re-normalizing `id` returns its first
identifier with the registry unchanged. -/
theorem c3_normalizer_injective_and_stable_witness :
    RegistryInv [] ∧ "id" ≠ "name" ∧
    ((normalizePropertyName (normalizePropertyName [] "id").1 "name").2 ≠
      (normalizePropertyName [] "id").2 ∧
    normalizePropertyName
        (normalizePropertyName (normalizePropertyName [] "id").1 "name").1 "id" =
      ((normalizePropertyName (normalizePropertyName [] "id").1 "name").1,
        (normalizePropertyName [] "id").2)) :=
  ⟨⟨List.nodup_nil, List.nodup_nil⟩, by decide,
    c3_normalizer_injective_and_stable [] ⟨List.nodup_nil, List.nodup_nil⟩
      "id" "name" (by decide)⟩

/-! ### Content-shape hasher lemmas (C6)

The fingerprint is insensitive to the interface name token: the whitespace
collapse turns `interface<ws>Name<ws>rest` into `interface Name <rest'>`,
and then the regex erasure replaces the whole `interface Name ` prefix by
`interface `, independently of the name and of the whitespace runs. -/

theorem not_ws_of_word (c : Char) (h : isWordChar c = true) :
    isJsWhitespace c = false := by
  simp only [isWordChar, Bool.or_eq_true, Bool.and_eq_true,
    decide_eq_true_eq] at h
  simp only [isJsWhitespace, Bool.or_eq_false_iff, decide_eq_false_iff_not]
  omega

theorem collapseAux_nonws_append (xs ys : List Char)
    (h : ∀ c ∈ xs, isJsWhitespace c = false) :
    collapseAux false (xs ++ ys) = xs ++ collapseAux false ys := by
  induction xs with
  | nil => rfl
  | cons c xs ih =>
    simp only [List.cons_append, collapseAux,
      h c (List.mem_cons_self c xs), Bool.false_eq_true, if_false]
    exact congrArg (List.cons c) (ih (fun x hx => h x (List.mem_cons_of_mem c hx)))

theorem collapseAux_true_ws_append (ws ys : List Char)
    (h : ∀ c ∈ ws, isJsWhitespace c = true) :
    collapseAux true (ws ++ ys) = collapseAux true ys := by
  induction ws with
  | nil => rfl
  | cons c ws ih =>
    simp only [List.cons_append, collapseAux, h c (List.mem_cons_self c ws),
      if_true]
    exact ih (fun x hx => h x (List.mem_cons_of_mem c hx))

theorem collapseAux_false_ws_append (ws ys : List Char) (hne : ws ≠ [])
    (h : ∀ c ∈ ws, isJsWhitespace c = true) :
    collapseAux false (ws ++ ys) = ' ' :: collapseAux true ys := by
  cases ws with
  | nil => exact absurd rfl hne
  | cons c ws =>
    simp only [List.cons_append, collapseAux, h c (List.mem_cons_self c ws),
      if_true, Bool.false_eq_true, if_false]
    exact congrArg (List.cons ' ') (collapseAux_true_ws_append ws ys
      (fun x hx => h x (List.mem_cons_of_mem c hx)))

theorem collapseAux_true_word_append (xs ys : List Char) (hne : xs ≠ [])
    (h : ∀ c ∈ xs, isJsWhitespace c = false) :
    collapseAux true (xs ++ ys) = xs ++ collapseAux false ys := by
  cases xs with
  | nil => exact absurd rfl hne
  | cons c xs =>
    simp only [List.cons_append, collapseAux,
      h c (List.mem_cons_self c xs), Bool.false_eq_true, if_false]
    exact congrArg (List.cons c) (collapseAux_nonws_append xs ys
      (fun x hx => h x (List.mem_cons_of_mem c hx)))

theorem collapseAux_true_head_not_ws (l : List Char) (c : Char) (cs : List Char)
    (h : collapseAux true l = c :: cs) : isJsWhitespace c = false := by
  induction l generalizing cs with
  | nil => cases h
  | cons x l ih =>
    by_cases hx : isJsWhitespace x = true
    · simp only [collapseAux, hx, if_true] at h
      exact ih cs h
    · rw [Bool.not_eq_true] at hx
      simp only [collapseAux, hx, Bool.false_eq_true, if_false] at h
      cases h
      exact hx

theorem takeWhile_all_append (p : Char → Bool) (xs : List Char) (y : Char)
    (ys : List Char) (hxs : ∀ c ∈ xs, p c = true) (hy : p y = false) :
    (xs ++ y :: ys).takeWhile p = xs ∧ (xs ++ y :: ys).dropWhile p = y :: ys := by
  induction xs with
  | nil =>
    simp only [List.nil_append, List.takeWhile_cons, List.dropWhile_cons, hy]
    simp
  | cons c xs ih =>
    have hc := hxs c (List.mem_cons_self c xs)
    have ih' := ih (fun x hx => hxs x (List.mem_cons_of_mem c hx))
    simp only [List.cons_append, List.takeWhile_cons, List.dropWhile_cons, hc,
      if_true]
    exact ⟨by rw [ih'.1], ih'.2⟩

theorem isPrefixOf_self_append (l rest : List Char) :
    l.isPrefixOf (l ++ rest) = true := by
  rw [List.isPrefixOf_iff_prefix]
  exact List.prefix_append l rest

/-- The canonical post-collapse shape: the regex matches `interface A ` at
the head and leaves exactly `R`, provided `A` is a nonempty word token and
`R` does not begin with whitespace. -/
theorem matchInterfaceAt_canonical (A R : List Char)
    (hA : A ≠ []) (hAw : ∀ c ∈ A, isWordChar c = true)
    (hR : ∀ c cs, R = c :: cs → isJsWhitespace c = false) :
    matchInterfaceAt ("interface ".data ++ (A ++ ' ' :: R)) = some R := by
  have hsplit : "interface ".data ++ (A ++ ' ' :: R) =
      "interface".data ++ (' ' :: (A ++ ' ' :: R)) := rfl
  rw [hsplit]
  unfold matchInterfaceAt
  rw [isPrefixOf_self_append]
  simp only [if_true]
  have hdrop : ("interface".data ++ (' ' :: (A ++ ' ' :: R))).drop 9 =
      ' ' :: (A ++ ' ' :: R) := rfl
  rw [hdrop]
  -- the leading whitespace run is exactly [' ']
  obtain ⟨a, A', rfl⟩ : ∃ a A', A = a :: A' := by
    cases A with
    | nil => exact absurd rfl hA
    | cons a A' => exact ⟨a, A', rfl⟩
  have haw : isWordChar a = true := hAw a (List.mem_cons_self a A')
  have hanw : isJsWhitespace a = false := not_ws_of_word a haw
  have hws : isJsWhitespace ' ' = true := by decide
  have htw1 : (' ' :: (a :: A' ++ ' ' :: R)).takeWhile isJsWhitespace = [' '] := by
    simp only [List.cons_append, List.takeWhile_cons, hws, hanw, if_true,
      Bool.false_eq_true, if_false]
  have hdw1 : (' ' :: (a :: A' ++ ' ' :: R)).dropWhile isJsWhitespace =
      a :: A' ++ ' ' :: R := by
    simp only [List.cons_append, List.dropWhile_cons, hws, hanw, if_true,
      Bool.false_eq_true, if_false]
  rw [htw1, hdw1]
  -- the word run is exactly A
  have hwsp : isWordChar ' ' = false := by decide
  have htw2 := takeWhile_all_append isWordChar (a :: A') ' ' R hAw hwsp
  rw [htw2.1, htw2.2]
  -- the trailing whitespace run is exactly [' ']
  cases hRc : R with
  | nil =>
    simp only [List.takeWhile_cons, List.dropWhile_cons, hws, if_true,
      List.takeWhile_nil, List.dropWhile_nil]
    simp
  | cons r R' =>
    have hrnw : isJsWhitespace r = false := hR r R' hRc
    simp only [List.takeWhile_cons, List.dropWhile_cons, hws, hrnw, if_true,
      Bool.false_eq_true, if_false]
    simp

theorem length_dropWhile_lt (p : Char → Bool) (l : List Char)
    (h : l.takeWhile p ≠ []) : (l.dropWhile p).length < l.length := by
  cases l with
  | nil => simp at h
  | cons c cs =>
    rw [List.takeWhile_cons] at h
    by_cases hc : p c = true
    · rw [List.dropWhile_cons, if_pos hc]
      calc (cs.dropWhile p).length ≤ cs.length :=
            (List.dropWhile_sublist p).length_le
        _ < (c :: cs).length := by simp
    · rw [if_neg hc] at h
      exact absurd rfl h

theorem matchInterfaceAt_lt (cs rest : List Char)
    (h : matchInterfaceAt cs = some rest) : rest.length < cs.length := by
  unfold matchInterfaceAt at h
  by_cases hp : ("interface".data.isPrefixOf cs) = true
  · rw [hp] at h
    simp only [if_true] at h
    by_cases hc : (((cs.drop 9).takeWhile isJsWhitespace).isEmpty ||
        ((((cs.drop 9).dropWhile isJsWhitespace)).takeWhile isWordChar).isEmpty ||
        (((((cs.drop 9).dropWhile isJsWhitespace)).dropWhile isWordChar).takeWhile
          isJsWhitespace).isEmpty) = true
    · rw [if_pos hc] at h
      cases h
    · rw [if_neg hc] at h
      cases h
      have hlen9 : 9 ≤ cs.length := by
        have := (List.isPrefixOf_iff_prefix.mp hp).length_le
        simpa using this
      simp only [Bool.or_eq_true, not_or, Bool.not_eq_true] at hc
      have h1 : (cs.drop 9).takeWhile isJsWhitespace ≠ [] := by
        intro hnil
        rw [hnil] at hc
        simp at hc
      have hlt1 : ((cs.drop 9).dropWhile isJsWhitespace).length <
          (cs.drop 9).length := length_dropWhile_lt _ _ h1
      have hle2 : ((((cs.drop 9).dropWhile isJsWhitespace)).dropWhile
          isWordChar).length ≤ ((cs.drop 9).dropWhile isJsWhitespace).length :=
        (List.dropWhile_sublist isWordChar).length_le
      have hle3 : (((((cs.drop 9).dropWhile isJsWhitespace)).dropWhile
          isWordChar).dropWhile isJsWhitespace).length ≤
          ((((cs.drop 9).dropWhile isJsWhitespace)).dropWhile isWordChar).length :=
        (List.dropWhile_sublist isJsWhitespace).length_le
      have hdrop : (cs.drop 9).length = cs.length - 9 := List.length_drop 9 cs
      omega
  · rw [Bool.not_eq_true] at hp
    rw [hp] at h
    simp at h

theorem eraseInterfaceNameAux_nil (m : Nat) :
    eraseInterfaceNameAux m [] = [] := by
  cases m with
  | zero => rfl
  | succ m => rfl

theorem eraseInterfaceNameAux_fuel (n : Nat) :
    ∀ m cs, cs.length ≤ n → cs.length ≤ m →
      eraseInterfaceNameAux n cs = eraseInterfaceNameAux m cs := by
  induction n with
  | zero =>
    intro m cs h1 _
    have hnil : cs = [] := List.length_eq_zero.mp (Nat.le_zero.mp h1)
    subst hnil
    rw [eraseInterfaceNameAux_nil, eraseInterfaceNameAux_nil]
  | succ n ih =>
    intro m cs h1 h2
    cases cs with
    | nil => rw [eraseInterfaceNameAux_nil, eraseInterfaceNameAux_nil]
    | cons c cs' =>
      obtain ⟨m', rfl⟩ : ∃ m', m = m' + 1 := by
        cases m with
        | zero => simp at h2
        | succ m' => exact ⟨m', rfl⟩
      simp only [eraseInterfaceNameAux]
      cases hmt : matchInterfaceAt (c :: cs') with
      | some rest =>
        have hlt := matchInterfaceAt_lt _ _ hmt
        simp only [List.length_cons] at h1 h2 hlt
        exact congrArg ("interface ".data ++ ·)
          (ih m' rest (by omega) (by omega))
      | none =>
        simp only [List.length_cons] at h1 h2
        exact congrArg (List.cons c) (ih m' cs' (by omega) (by omega))

theorem eraseInterfaceName_canonical (A R : List Char)
    (hA : A ≠ []) (hAw : ∀ c ∈ A, isWordChar c = true)
    (hR : ∀ c cs, R = c :: cs → isJsWhitespace c = false) :
    eraseInterfaceName ("interface ".data ++ (A ++ ' ' :: R)) =
      "interface ".data ++ eraseInterfaceName R := by
  have hcons : "interface ".data ++ (A ++ ' ' :: R) =
      'i' :: ("nterface ".data ++ (A ++ ' ' :: R)) := rfl
  have hmatch : matchInterfaceAt
      ('i' :: ("nterface ".data ++ (A ++ ' ' :: R))) = some R := by
    rw [← hcons]
    exact matchInterfaceAt_canonical A R hA hAw hR
  unfold eraseInterfaceName
  rw [hcons]
  simp only [List.length_cons, eraseInterfaceNameAux, hmatch]
  refine congrArg ("interface ".data ++ ·) ?_
  have hTlen : ("nterface ".data ++ (A ++ ' ' :: R)).length =
      9 + (A.length + (1 + R.length)) := by
    simp [List.length_append]
    omega
  apply eraseInterfaceNameAux_fuel
  · rw [hTlen]
    omega
  · exact le_refl _

theorem collapse_interface_shape (A u1 u2 rest : List Char)
    (hA : A ≠ []) (hAw : ∀ c ∈ A, isWordChar c = true)
    (h1 : u1 ≠ []) (h1w : ∀ c ∈ u1, isJsWhitespace c = true)
    (h2 : u2 ≠ []) (h2w : ∀ c ∈ u2, isJsWhitespace c = true) :
    collapseWhitespace ("interface".data ++ u1 ++ A ++ u2 ++ rest) =
      "interface ".data ++ (A ++ ' ' :: collapseAux true rest) := by
  unfold collapseWhitespace
  rw [List.append_assoc, List.append_assoc, List.append_assoc]
  rw [collapseAux_nonws_append _ _ (by decide)]
  rw [collapseAux_false_ws_append _ _ h1 h1w]
  rw [collapseAux_true_word_append _ _ hA
    (fun c hc => not_ws_of_word c (hAw c hc))]
  rw [collapseAux_false_ws_append _ _ h2 h2w]
  rfl

/-- C6: the fingerprint is insensitive to the declared interface name: two
texts of the form `interface<ws><Name><ws><rest>` that differ only in the
(nonempty, word-character) name token and in the (nonempty) whitespace runs
around it have equal `hashType` fingerprints. -/
theorem c6_hashType_name_insensitive (a b u1 u2 v1 v2 rest : List Char)
    (ha : a ≠ [] ∧ ∀ c ∈ a, isWordChar c = true)
    (hb : b ≠ [] ∧ ∀ c ∈ b, isWordChar c = true)
    (hu1 : u1 ≠ [] ∧ ∀ c ∈ u1, isJsWhitespace c = true)
    (hu2 : u2 ≠ [] ∧ ∀ c ∈ u2, isJsWhitespace c = true)
    (hv1 : v1 ≠ [] ∧ ∀ c ∈ v1, isJsWhitespace c = true)
    (hv2 : v2 ≠ [] ∧ ∀ c ∈ v2, isJsWhitespace c = true) :
    hashType (String.mk ("interface".data ++ u1 ++ a ++ u2 ++ rest)) =
      hashType (String.mk ("interface".data ++ v1 ++ b ++ v2 ++ rest)) := by
  have hcA := collapse_interface_shape a u1 u2 rest ha.1 ha.2 hu1.1 hu1.2
    hu2.1 hu2.2
  have hcB := collapse_interface_shape b v1 v2 rest hb.1 hb.2 hv1.1 hv1.2
    hv2.1 hv2.2
  have hRhead : ∀ c cs, collapseAux true rest = c :: cs →
      isJsWhitespace c = false :=
    fun c cs h => collapseAux_true_head_not_ws rest c cs h
  have heA := eraseInterfaceName_canonical a (collapseAux true rest)
    ha.1 ha.2 hRhead
  have heB := eraseInterfaceName_canonical b (collapseAux true rest)
    hb.1 hb.2 hRhead
  unfold hashType normalizeHashInput
  have hdA : (String.mk ("interface".data ++ u1 ++ a ++ u2 ++ rest)).data =
      "interface".data ++ u1 ++ a ++ u2 ++ rest := rfl
  have hdB : (String.mk ("interface".data ++ v1 ++ b ++ v2 ++ rest)).data =
      "interface".data ++ v1 ++ b ++ v2 ++ rest := rfl
  rw [hdA, hdB, hcA, hcB, heA, heB]

/-- C6 witness: `interface Foo ( x: number )` and `interface  Bar<TAB>( x:
number )` have the same fingerprint, writing ( ) for the body braces. -/
theorem c6_hashType_name_insensitive_witness :
    ("Foo".data ≠ [] ∧ ∀ c ∈ "Foo".data, isWordChar c = true) ∧
    ("Bar".data ≠ [] ∧ ∀ c ∈ "Bar".data, isWordChar c = true) ∧
    hashType (String.mk ("interface".data ++ " ".data ++ "Foo".data ++
        " ".data ++ "\x7b x: number \x7d".data)) =
      hashType (String.mk ("interface".data ++ "  ".data ++ "Bar".data ++
        "\t".data ++ "\x7b x: number \x7d".data)) :=
  ⟨⟨by decide, by decide⟩, ⟨by decide, by decide⟩,
    c6_hashType_name_insensitive "Foo".data "Bar".data " ".data " ".data
      "  ".data "\t".data "\x7b x: number \x7d".data
      ⟨by decide, by decide⟩ ⟨by decide, by decide⟩ ⟨by decide, by decide⟩
      ⟨by decide, by decide⟩ ⟨by decide, by decide⟩ ⟨by decide, by decide⟩⟩

/-! ### SDK assembler lemmas (C9)

The emitted output only ever grows, and the params interface name emitted
for a group is determined by the type prefix and the title-cased resource
name alone — the HTTP method and group key play no part. -/

theorem processBodyStep_output_extends (jsonTS : JsonToTsFn)
    (mergeTypes : Bool) (requestTypeName : String) (st st' : GenState)
    (bt bt' : String) (e : HarEntry)
    (h : processBodyStep jsonTS mergeTypes requestTypeName st bt e =
      .ok (st', bt')) : ∃ tail, st'.output = st.output ++ tail := by
  unfold processBodyStep at h
  cases hb : requestBodyText e with
  | none =>
    simp only [hb] at h
    cases h
    exact ⟨[], by simp⟩
  | some txt =>
    simp only [hb] at h
    cases hg : generateTypeFromDataE jsonTS st.infer
        (requestTypeName ++
          (if st.typeReg.length = 0 then "" else natToDecimal st.typeReg.length))
        (.str txt) (requestBodyMime e) with
    | error err =>
      simp only [hg] at h
      cases h
    | ok p =>
      obtain ⟨inf, definition⟩ := p
      simp only [hg] at h
      cases h
      exact ⟨_, rfl⟩

theorem processBodies_output_extends (jsonTS : JsonToTsFn) (mergeTypes : Bool)
    (requestTypeName : String) (st st' : GenState) (bt bt' : String)
    (es : List HarEntry)
    (h : processBodies jsonTS mergeTypes requestTypeName st bt es =
      .ok (st', bt')) : ∃ tail, st'.output = st.output ++ tail := by
  induction es generalizing st bt with
  | nil =>
    simp only [processBodies] at h
    cases h
    exact ⟨[], by simp⟩
  | cons e rest ih =>
    simp only [processBodies] at h
    cases hs : processBodyStep jsonTS mergeTypes requestTypeName st bt e with
    | error err => rw [hs] at h; cases h
    | ok p =>
      rw [hs] at h
      obtain ⟨t1, ht1⟩ := processBodyStep_output_extends jsonTS mergeTypes
        requestTypeName st p.1 bt p.2 e (by rw [hs])
      obtain ⟨t2, ht2⟩ := ih p.1 p.2 h
      exact ⟨t1 ++ t2, by rw [ht2, ht1, List.append_assoc]⟩

theorem processResponseStep_output_extends (jsonTS : JsonToTsFn)
    (mergeTypes : Bool) (responseTypeName : String) (st : GenState)
    (rt : String) (e : HarEntry) :
    ∃ tail, (processResponseStep jsonTS mergeTypes responseTypeName st rt e).1.output =
      st.output ++ tail := by
  unfold processResponseStep
  cases hb : responseBodyText e with
  | none =>
    simp only [hb]
    exact ⟨[], by simp⟩
  | some txt =>
    simp only [hb]
    cases hg : generateTypeFromDataE jsonTS st.infer
        (responseTypeName ++
          (if st.typeReg.length = 0 then "" else natToDecimal st.typeReg.length))
        (.str txt) (responseBodyMime e) with
    | error err =>
      simp only [hg]
      exact ⟨[], by simp⟩
    | ok p =>
      obtain ⟨inf, definition⟩ := p
      simp only [hg]
      exact ⟨_, rfl⟩

theorem processResponses_output_extends (jsonTS : JsonToTsFn)
    (mergeTypes : Bool) (responseTypeName : String) (st : GenState)
    (rt : String) (es : List HarEntry) :
    ∃ tail, (processResponses jsonTS mergeTypes responseTypeName st rt es).1.output =
      st.output ++ tail := by
  induction es generalizing st rt with
  | nil => exact ⟨[], by simp [processResponses]⟩
  | cons e rest ih =>
    simp only [processResponses]
    obtain ⟨t1, ht1⟩ := processResponseStep_output_extends jsonTS mergeTypes
      responseTypeName st rt e
    obtain ⟨t2, ht2⟩ := ih
      (processResponseStep jsonTS mergeTypes responseTypeName st rt e).1
      (processResponseStep jsonTS mergeTypes responseTypeName st rt e).2
    exact ⟨t1 ++ t2, by rw [ht2, ht1, List.append_assoc]⟩

theorem processGroup_params_name (jsonTS : JsonToTsFn) (mergeTypes : Bool)
    (typePrefix : String) (st st' : GenState) (g : List HarEntry)
    (r : GroupResult)
    (h : processGroup jsonTS mergeTypes typePrefix st g = .ok (st', r)) :
    (∀ nm t, r.paramsChunk = some (nm, t) →
      nm = typePrefix ++ normalizeTypeName r.resource ++ "Params" ∧
      t ∈ st'.output) ∧
    ∃ tail, st'.output = st.output ++ tail := by
  cases g with
  | nil => cases h
  | cons firstEntry g' =>
    simp only [processGroup] at h
    cases hurl : parseURL firstEntry.request.url with
    | none =>
      simp only [hurl] at h
      cases h
    | some url =>
      simp only [hurl] at h
      cases hq : collectQueryParams [] (firstEntry :: g') with
      | error err =>
        simp only [hq] at h
        cases h
      | ok allQueryParams =>
        simp only [hq] at h
        by_cases hqe : allQueryParams.isEmpty = true
        · rw [if_pos hqe] at h
          cases hb : processBodies jsonTS mergeTypes
              (typePrefix ++ normalizeTypeName (getResourceName url) ++ "Request")
              st "undefined" (firstEntry :: g') with
          | error err =>
            simp only [hb] at h
            cases h
          | ok p =>
            obtain ⟨st2, bodyType⟩ := p
            simp only [hb] at h
            cases h
            constructor
            · intro nm t hpc
              cases hpc
            · obtain ⟨t1, ht1⟩ := processBodies_output_extends jsonTS mergeTypes
                _ st st2 "undefined" bodyType _ hb
              obtain ⟨t2, ht2⟩ := processResponses_output_extends jsonTS
                mergeTypes
                (typePrefix ++ normalizeTypeName (getResourceName url) ++ "Response")
                st2 "ResponseBase<unknown>" (firstEntry :: g')
              exact ⟨t1 ++ t2, by rw [ht2, ht1, List.append_assoc]⟩
        · rw [if_neg hqe] at h
          cases hb : processBodies jsonTS mergeTypes
              (typePrefix ++ normalizeTypeName (getResourceName url) ++ "Request")
              { st with
                  infer := (paramFieldLines st.infer allQueryParams).1,
                  output := st.output ++
                    ["\nexport " ++ ("interface " ++
                      (typePrefix ++ normalizeTypeName (getResourceName url) ++
                        "Params") ++ " \x7b\n" ++
                      String.intercalate "\n"
                        (paramFieldLines st.infer allQueryParams).2 ++ "\n\x7d") ++
                      "\n"] }
              "undefined" (firstEntry :: g') with
          | error err =>
            simp only [hb] at h
            cases h
          | ok p =>
            obtain ⟨st2, bodyType⟩ := p
            simp only [hb] at h
            cases h
            obtain ⟨t1, ht1⟩ := processBodies_output_extends jsonTS mergeTypes
              _ _ st2 "undefined" bodyType _ hb
            obtain ⟨t2, ht2⟩ := processResponses_output_extends jsonTS mergeTypes
              (typePrefix ++ normalizeTypeName (getResourceName url) ++ "Response")
              st2 "ResponseBase<unknown>" (firstEntry :: g')
            constructor
            · intro nm t hpc
              simp only at hpc
              cases hpc
              refine ⟨rfl, ?_⟩
              rw [ht2, ht1]
              refine List.mem_append_left _ (List.mem_append_left _ ?_)
              exact List.mem_append_right _ (List.mem_singleton.mpr rfl)
            · refine ⟨["\nexport " ++ ("interface " ++
                (typePrefix ++ normalizeTypeName (getResourceName url) ++
                  "Params") ++ " \x7b\n" ++
                String.intercalate "\n"
                  (paramFieldLines st.infer allQueryParams).2 ++ "\n\x7d") ++
                "\n"] ++ t1 ++ t2, ?_⟩
              rw [ht2, ht1]
              simp [List.append_assoc]

theorem processGroups_output_extends (jsonTS : JsonToTsFn) (mergeTypes : Bool)
    (typePrefix : String) :
    ∀ (gs : List (String × List HarEntry)) (st stF : GenState)
      (rs : List GroupResult),
      processGroups jsonTS mergeTypes typePrefix st gs = .ok (stF, rs) →
      ∃ tail, stF.output = st.output ++ tail := by
  intro gs
  induction gs with
  | nil =>
    intro st stF rs h
    simp only [processGroups] at h
    cases h
    exact ⟨[], by simp⟩
  | cons g gs' ih =>
    intro st stF rs h
    obtain ⟨key, entries⟩ := g
    simp only [processGroups] at h
    cases hg : processGroup jsonTS mergeTypes typePrefix st entries with
    | error err => simp only [hg] at h; cases h
    | ok p =>
      obtain ⟨st1, r1⟩ := p
      simp only [hg] at h
      cases hgs : processGroups jsonTS mergeTypes typePrefix st1 gs' with
      | error err => simp only [hgs] at h; cases h
      | ok q =>
        obtain ⟨stF', rs'⟩ := q
        simp only [hgs] at h
        cases h
        obtain ⟨t1, ht1⟩ := (processGroup_params_name jsonTS mergeTypes
          typePrefix st st1 entries r1 hg).2
        obtain ⟨t2, ht2⟩ := ih st1 stF rs' hgs
        exact ⟨t1 ++ t2, by rw [ht2, ht1, List.append_assoc]⟩

theorem processGroups_params_name (jsonTS : JsonToTsFn) (mergeTypes : Bool)
    (typePrefix : String) (st stF : GenState)
    (gs : List (String × List HarEntry)) (rs : List GroupResult)
    (h : processGroups jsonTS mergeTypes typePrefix st gs = .ok (stF, rs)) :
    ∀ r ∈ rs, ∀ nm t, r.paramsChunk = some (nm, t) →
      nm = typePrefix ++ normalizeTypeName r.resource ++ "Params" ∧
      t ∈ stF.output := by
  induction gs generalizing st rs with
  | nil =>
    simp only [processGroups] at h
    cases h
    intro r hr
    cases hr
  | cons g gs' ih =>
    obtain ⟨key, entries⟩ := g
    simp only [processGroups] at h
    cases hg : processGroup jsonTS mergeTypes typePrefix st entries with
    | error err => simp only [hg] at h; cases h
    | ok p =>
      obtain ⟨st1, r1⟩ := p
      simp only [hg] at h
      cases hgs : processGroups jsonTS mergeTypes typePrefix st1 gs' with
      | error err => simp only [hgs] at h; cases h
      | ok q =>
        obtain ⟨stF', rs'⟩ := q
        simp only [hgs] at h
        cases h
        intro r hr nm t hpc
        rcases List.mem_cons.mp hr with hr1 | hr2
        · subst hr1
          obtain ⟨hname, hmem⟩ :=
            (processGroup_params_name jsonTS mergeTypes typePrefix st st1
              entries r hg).1 nm t hpc
          refine ⟨hname, ?_⟩
          obtain ⟨tail, htail⟩ := processGroups_output_extends jsonTS mergeTypes
            typePrefix gs' st1 stF rs' hgs
          rw [htail]
          exact List.mem_append_left tail hmem
        · exact ih st1 rs' hgs r hr2 nm t hpc

/-- C9: the query-parameter interface name is derived only from the type
prefix and the title-cased resource name, never from the HTTP method or
group key — so in a run whose groups include two distinct groups with the
same resource name that both observed query parameters, the output contains
the two groups' interface declarations under the identical name. -/
theorem c9_duplicate_params_interface_names (jsonTS : JsonToTsFn)
    (mergeTypes : Bool) (typePrefix : String) (entries : List HarEntry)
    (st : GenState) (rs : List GroupResult)
    (hok : generateFromHar jsonTS mergeTypes typePrefix entries = .ok (st, rs))
    (i j : Nat) (_hij : i ≠ j) (r1 r2 : GroupResult)
    (h1 : rs[i]? = some r1) (h2 : rs[j]? = some r2)
    (hres : r1.resource = r2.resource) (n1 t1 n2 t2 : String)
    (hp1 : r1.paramsChunk = some (n1, t1))
    (hp2 : r2.paramsChunk = some (n2, t2)) :
    n1 = n2 ∧ t1 ∈ st.output ∧ t2 ∈ st.output := by
  unfold generateFromHar at hok
  cases hge : groupEndpoints entries with
  | error err => rw [hge] at hok; cases hok
  | ok groups =>
    rw [hge] at hok
    have hm1 : r1 ∈ rs := by
      have := List.getElem?_eq_some_iff.mp h1
      obtain ⟨hi, hget⟩ := this
      rw [← hget]
      exact List.getElem_mem hi
    have hm2 : r2 ∈ rs := by
      have := List.getElem?_eq_some_iff.mp h2
      obtain ⟨hj, hget⟩ := this
      rw [← hget]
      exact List.getElem_mem hj
    obtain ⟨hn1, ht1⟩ := processGroups_params_name jsonTS mergeTypes typePrefix
      initialGenState st groups rs hok r1 hm1 n1 t1 hp1
    obtain ⟨hn2, ht2⟩ := processGroups_params_name jsonTS mergeTypes typePrefix
      initialGenState st groups rs hok r2 hm2 n2 t2 hp2
    refine ⟨?_, ht1, ht2⟩
    rw [hn1, hn2, hres]

/-- C9 witness: `GET /users?x=1` and `POST /users?y=2` form two groups with
the same resource; the run emits two `interface UsersParams` declarations
under the identical name. -/
theorem c9_duplicate_params_interface_names_witness :
    generateFromHar jsonTSStub true "" [getUsersEntry, postUsersEntry] =
      .ok ({ infer := { propReg := [("x", "x"), ("y", "y")], warnings := [] },
             typeReg := [],
             output :=
               ["\nexport interface UsersParams \x7b\n  x?: string | number | boolean;\n\x7d\n",
                "\nexport interface UsersParams \x7b\n  y?: string | number | boolean;\n\x7d\n"] },
        [{ resource := "users",
           paramsType := "UsersParams",
           paramsChunk := some ("UsersParams",
             "\nexport interface UsersParams \x7b\n  x?: string | number | boolean;\n\x7d\n"),
           bodyType := "undefined",
           responseType := "ResponseBase<unknown>" },
         { resource := "users",
           paramsType := "UsersParams",
           paramsChunk := some ("UsersParams",
             "\nexport interface UsersParams \x7b\n  y?: string | number | boolean;\n\x7d\n"),
           bodyType := "undefined",
           responseType := "ResponseBase<unknown>" }]) ∧
    ((("UsersParams" : String) = "UsersParams") ∧
      "\nexport interface UsersParams \x7b\n  x?: string | number | boolean;\n\x7d\n" ∈
        ["\nexport interface UsersParams \x7b\n  x?: string | number | boolean;\n\x7d\n",
         "\nexport interface UsersParams \x7b\n  y?: string | number | boolean;\n\x7d\n"] ∧
      "\nexport interface UsersParams \x7b\n  y?: string | number | boolean;\n\x7d\n" ∈
        ["\nexport interface UsersParams \x7b\n  x?: string | number | boolean;\n\x7d\n",
         "\nexport interface UsersParams \x7b\n  y?: string | number | boolean;\n\x7d\n"]) := by
  refine ⟨rfl, ?_⟩
  exact c9_duplicate_params_interface_names jsonTSStub true ""
    [getUsersEntry, postUsersEntry]
    { infer := { propReg := [("x", "x"), ("y", "y")], warnings := [] },
      typeReg := [],
      output :=
        ["\nexport interface UsersParams \x7b\n  x?: string | number | boolean;\n\x7d\n",
         "\nexport interface UsersParams \x7b\n  y?: string | number | boolean;\n\x7d\n"] }
    [{ resource := "users",
       paramsType := "UsersParams",
       paramsChunk := some ("UsersParams",
         "\nexport interface UsersParams \x7b\n  x?: string | number | boolean;\n\x7d\n"),
       bodyType := "undefined",
       responseType := "ResponseBase<unknown>" },
     { resource := "users",
       paramsType := "UsersParams",
       paramsChunk := some ("UsersParams",
         "\nexport interface UsersParams \x7b\n  y?: string | number | boolean;\n\x7d\n"),
       bodyType := "undefined",
       responseType := "ResponseBase<unknown>" }]
    rfl 0 1 (by decide) _ _ rfl rfl rfl _ _ _ _ rfl rfl

end HarToTs
